import Mathlib

/-!
Shallow embedding of the runtime core of the `tis-cli` emulator
(a TIS-100-style grid of compute and console nodes).

Modelling conventions:
* Rust `i16` / `i32` / `usize` values are modelled as `Int` / `Nat`; all the
  arithmetic the emulator performs on them stays far inside the machine
  ranges (`Number` is saturated to [-999, 999] and sums of two such values
  fit easily in `i16`), so no wrap-around modelling is needed.
* The node graph is modelled as an association list `List (Position × Node)`.
  In the source, neighbor links (`up`/`down`/`left`/`right` fields holding
  `Rc<RefCell<dyn Node>>`) are installed by `TIS::add_node` so that a node's
  `d`-link is exactly the node stored at `position.in_direction(d)`; the
  embedding therefore resolves neighbors by grid lookup at that position.
* Console I/O is modelled explicitly: standard input is a list of lines
  (each a `List Char`), standard output is a list of `OutItem` events.
* Places where the source panics (missing jump label, `unreachable!()`,
  `unwrap` on an empty console buffer) are modelled as leaving the state
  unchanged / yielding no value; no theorem below depends on those branches.
-/

namespace TisCli

/-- Embedding of `direction.rs`: the four directions, in declaration order
`Up, Left, Right, Down`.  The derived Rust `Ord` compares by declaration
order, which `idx` reproduces. -/
inductive Direction where
  | Up
  | Left
  | Right
  | Down
deriving DecidableEq, Repr

/-- Index of a direction in the declaration order `Up, Left, Right, Down`;
this is the order of the derived `Ord` on the Rust enum. -/
def Direction.idx : Direction → Nat
  | .Up => 0
  | .Left => 1
  | .Right => 2
  | .Down => 3

/-- Embedding of Rust `Ord::min` specialised to `Direction`: `a` if
`a ≤ b` in the derived order, else `b`. -/
def Direction.min (a b : Direction) : Direction :=
  if a.idx ≤ b.idx then a else b

/-- Embedding of `Direction::opposite`. -/
def Direction.opposite : Direction → Direction
  | .Up => .Down
  | .Left => .Right
  | .Right => .Left
  | .Down => .Up

/-- Iteration order of `enum_iterator::all::<Direction>()`: declaration
order of the variants. -/
def Direction.all : List Direction := [.Up, .Left, .Right, .Down]

/-- Embedding of `position.rs`: a pair of (i32) coordinates, modelled as
integers. -/
structure Position where
  x : Int
  y : Int
deriving DecidableEq, Repr

/-- Embedding of `Position::in_direction`: `Up` increases `y`, `Down`
decreases `y`, `Left` decreases `x`, `Right` increases `x`. -/
def Position.in_direction (p : Position) : Direction → Position
  | .Up => ⟨p.x, p.y + 1⟩
  | .Down => ⟨p.x, p.y - 1⟩
  | .Left => ⟨p.x - 1, p.y⟩
  | .Right => ⟨p.x + 1, p.y⟩

/-- Clamp an integer into [-999, 999]; embedding of Rust
`value.clamp(-999, 999)`. -/
def clamp999 (n : Int) : Int := max (-999) (min n 999)

/-- Embedding of `number.rs`: `Number(i16)`, a saturating integer.
Every public constructor clamps into [-999, 999]. -/
structure Number where
  val : Int
deriving DecidableEq, Repr

/-- Embedding of `Number::new`: zero. -/
def Number.new : Number := ⟨0⟩

/-- Embedding of `Number::value`. -/
def Number.value (n : Number) : Int := n.val

/-- Embedding of `Number::set_value`: stores `value.clamp(-999, 999)`. -/
def Number.set_value (_ : Number) (v : Int) : Number := ⟨clamp999 v⟩

/-- Embedding of the `impl_from_signed!` conversions (`i16`, `i32`, `i64`,
`i128`, `isize` → `Number`): `Self(number.clamp(-999, 999) as i16)`. -/
def Number.fromInt (n : Int) : Number := ⟨clamp999 n⟩

/-- Embedding of the `impl_from_unsigned!` conversions (`u16`, `u32`,
`u64`, `u128`, `usize` → `Number`): `Self(number.min(999) as i16)`;
the argument is a nonnegative integer. -/
def Number.fromUnsigned (n : Nat) : Number := ⟨min (n : Int) 999⟩

/-- Embedding of `From<i8> for Number`: `Self(number as i16)`, no clamp
(the `i8` range is inside [-999, 999]). -/
def Number.from_i8 (n : Int) : Number := ⟨n⟩

/-- Embedding of `From<u8> for Number`: `Self(number as i16)`, no clamp. -/
def Number.from_u8 (n : Nat) : Number := ⟨(n : Int)⟩

/-- Embedding of `Add for Number`: `Self::from(self.value() + rhs.value())`. -/
def Number.add (a b : Number) : Number := Number.fromInt (a.value + b.value)

/-- Embedding of `Sub for Number`: `Self::from(self.value() - rhs.value())`. -/
def Number.sub (a b : Number) : Number := Number.fromInt (a.value - b.value)

/-- Embedding of `Neg for Number`: `Self::from(-self.value())`. -/
def Number.negate (a : Number) : Number := Number.fromInt (-a.value)

/-- Embedding of `AddAssign for Number`:
`self.set_value(self.value() + rhs.value())`. -/
def Number.add_assign (a b : Number) : Number := a.set_value (a.value + b.value)

/-- Embedding of `SubAssign for Number`:
`self.set_value(self.value() - rhs.value())`. -/
def Number.sub_assign (a b : Number) : Number := a.set_value (a.value - b.value)

/-- Embedding of `Zero::is_zero for Number`. -/
def Number.is_zero (a : Number) : Bool := a.value == 0

/-- Loop body of `Number::from_str`: for each character, require a decimal
digit, then `value *= 10; value += digit; value = value.min(999)`. -/
def Number.from_str_go : List Char → Int → Except String Int
  | [], v => .ok v
  | c :: cs, v =>
    if c.isDigit then
      Number.from_str_go cs (min (v * 10 + ((c.toNat : Int) - 48)) 999)
    else
      .error ("Invalid digit: " ++ String.mk [c])

/-- Embedding of `FromStr for Number`: empty input is an error; a leading
`-` is consumed and remembered; the remaining characters must all be
digits, accumulated with saturation at 999; the result is negated if the
leading `-` was present, and converted through the clamping `From`. -/
def Number.from_str (s : List Char) : Except String Number :=
  match s with
  | [] => .error "Empty string"
  | c :: rest =>
    let is_negative := c = '-'
    let digits := if is_negative then rest else c :: rest
    match Number.from_str_go digits 0 with
    | .error e => .error e
    | .ok v => .ok (if is_negative then Number.fromInt (-v) else Number.fromInt v)

/-- Embedding of `register.rs`: `Register`. -/
inductive Register where
  | Accumulator
  | Nil
  | Direction (d : Direction)
  | Any
  | Last
deriving DecidableEq, Repr

/-- Embedding of `register.rs`: `RegisterOrNumber`. -/
inductive RegisterOrNumber where
  | Register (r : Register)
  | Number (n : Number)
deriving DecidableEq, Repr

/-- Embedding of `instruction.rs`: `Instruction` (jump targets are label
strings resolved through the node's `labels` map, as in the source). -/
inductive Instruction where
  | Noop
  | Move (src : RegisterOrNumber) (dst : Register)
  | Swap
  | Save
  | Add (src : RegisterOrNumber)
  | Subtract (src : RegisterOrNumber)
  | Negate
  | Jump (label : String)
  | JumpEqualZero (label : String)
  | JumpNotZero (label : String)
  | JumpGreaterThanZero (label : String)
  | JumpLessThanZero (label : String)
  | JumpRelative (src : RegisterOrNumber)
deriving DecidableEq, Repr

/-- Embedding of `node.rs`: the four-valued port tag `DirectionGiving`. -/
inductive DirectionGiving where
  | None
  | Any
  | Direction (d : Direction)
  | Given
deriving DecidableEq, Repr

/-- Embedding of `node/instruction_node.rs`: the compute node state.
Neighbor link fields are omitted: by the cross-linking performed in
`TIS::add_node`, the `d`-link of a node is the node stored in the grid at
`position.in_direction d`, and the embedding resolves neighbors that way. -/
structure InstructionNode where
  position : Position
  labels : List (String × Nat)
  instructions : List Instruction
  ptr : Nat
  accumulator : Number
  backup : Number
  last : Option Direction
  give : DirectionGiving
  give_value : Option Number
  giving_to : Option Direction
deriving DecidableEq, Repr

/-- Embedding of `InstructionNode::new` (registers zero, port idle). -/
def InstructionNode.new (position : Position) (labels : List (String × Nat))
    (instructions : List Instruction) : InstructionNode where
  position := position
  labels := labels
  instructions := instructions
  ptr := 0
  accumulator := Number.new
  backup := Number.new
  last := Option.none
  give := DirectionGiving.None
  give_value := Option.none
  giving_to := Option.none

/-- Embedding of `node/console_node.rs`: `ConsoleOutNode` holds only its
position (plus neighbor links, resolved by grid lookup here). -/
structure ConsoleOutNode where
  position : Position
deriving DecidableEq, Repr

/-- Embedding of `node/console_node.rs`: `ConsoleInNode`; `text_buffer`
holds the unconsumed rest of the current input line.  The source stores the
line reversed and pops from the end; the embedding stores it in reading
order and pops from the front, which is the same byte sequence. -/
structure ConsoleInNode where
  position : Position
  text_buffer : Option (List Char)
  give : DirectionGiving
  giving_to : Option Direction
  give_value : Option Number
deriving DecidableEq, Repr

/-- Embedding of `ConsoleInNode::new`: starts offering on `Any`. -/
def ConsoleInNode.new (position : Position) : ConsoleInNode where
  position := position
  text_buffer := Option.none
  give := DirectionGiving.Any
  giving_to := Option.none
  give_value := Option.none

/-- Embedding of `node/number_console_node.rs`: `NumberConsoleOutNode`. -/
structure NumberConsoleOutNode where
  position : Position
deriving DecidableEq, Repr

/-- Embedding of `node/number_console_node.rs`: `NumberConsoleInNode`. -/
structure NumberConsoleInNode where
  position : Position
  give : DirectionGiving
  giving_to : Option Direction
  give_value : Option Number
deriving DecidableEq, Repr

/-- Embedding of `NumberConsoleInNode::new`: starts offering on `Any`. -/
def NumberConsoleInNode.new (position : Position) : NumberConsoleInNode where
  position := position
  give := DirectionGiving.Any
  giving_to := Option.none
  give_value := Option.none

/-- The five node kinds behind the `dyn Node` trait object. -/
inductive Node where
  | instr (n : InstructionNode)
  | consoleOut (n : ConsoleOutNode)
  | consoleIn (n : ConsoleInNode)
  | numberConsoleOut (n : NumberConsoleOutNode)
  | numberConsoleIn (n : NumberConsoleInNode)
deriving DecidableEq, Repr

/-- Dispatch of `Node::position`. -/
def Node.position : Node → Position
  | .instr n => n.position
  | .consoleOut n => n.position
  | .consoleIn n => n.position
  | .numberConsoleOut n => n.position
  | .numberConsoleIn n => n.position

/-- Dispatch of `Node::give`; the two writer nodes always report `None`. -/
def Node.give : Node → DirectionGiving
  | .instr n => n.give
  | .consoleOut _ => .None
  | .consoleIn n => n.give
  | .numberConsoleOut _ => .None
  | .numberConsoleIn n => n.give

/-- Dispatch of `Node::giving_to`; the two writer nodes always report
no receiver. -/
def Node.giving_to : Node → Option Direction
  | .instr n => n.giving_to
  | .consoleOut _ => Option.none
  | .consoleIn n => n.giving_to
  | .numberConsoleOut _ => Option.none
  | .numberConsoleIn n => n.giving_to

/-- Dispatch of `Node::set_giving_to`; a no-op on the two writer nodes. -/
def Node.set_giving_to (n : Node) (d : Direction) : Node :=
  match n with
  | .instr m => .instr { m with giving_to := some d }
  | .consoleOut m => .consoleOut m
  | .consoleIn m => .consoleIn { m with giving_to := some d }
  | .numberConsoleOut m => .numberConsoleOut m
  | .numberConsoleIn m => .numberConsoleIn { m with giving_to := some d }

/-- Output events of the emulator, in emission order. -/
inductive OutItem where
  | charOut (v : Int)
  | numOut (v : Int)
  | promptErr
deriving DecidableEq, Repr

/-- Embedding of the `TIS` struct of `tis.rs` together with the standard
I/O streams the console nodes touch: the node map as an association list
and stdin as a list of input lines. -/
structure TIS where
  nodes : List (Position × Node)
  stdin : List (List Char)
  stdout : List OutItem
deriving DecidableEq, Repr

/-- Grid lookup (`self.nodes.get(&pos)`): first entry with the given key. -/
def TIS.findNode (w : TIS) (p : Position) : Option Node :=
  (w.nodes.find? (fun q => q.1 = p)).map (fun q => q.2)

/-- Write back a node at a position (the effect of mutating through the
`Rc<RefCell<_>>` stored under that key). -/
def TIS.setNode (w : TIS) (p : Position) (n : Node) : TIS :=
  { w with nodes := w.nodes.map (fun q => if q.1 = p then (p, n) else q) }

/-- Helper of `ConsoleInNode::give_value` followed by the consumer's
`.take()`: refill `text_buffer` from stdin when empty (an exhausted stdin
behaves like `read_line` returning an empty line at EOF), pop one byte
(char code truncated to `u8` as in `c as u8`), convert through
`From<i16>`, and hand the value out, leaving `give_value` empty.  The
source pops the last char of the reversed line; popping the front of the
unreversed line is the same.  An empty buffer makes the source panic on
`unwrap`; modelled as producing no value. -/
def ConsoleInNode.take_value (n : ConsoleInNode) (stdin : List (List Char)) :
    Option Number × ConsoleInNode × List (List Char) :=
  let refill : Option (List Char) × List (List Char) :=
    match n.text_buffer with
    | some b => (some b, stdin)
    | Option.none =>
      match stdin with
      | [] => (some [], [])
      | line :: rest => (some line, rest)
  match refill with
  | (some (c :: restBuf), stdin1) =>
    let v := Number.fromInt ((c.toNat % 256 : Nat) : Int)
    (some v,
      { n with
          text_buffer := if restBuf = [] then Option.none else some restBuf,
          give_value := Option.none },
      stdin1)
  | (buf, stdin1) =>
    (Option.none, { n with text_buffer := buf, give_value := Option.none }, stdin1)

/-- Whitespace trimming of one input line (Rust `str::trim`). -/
def trimChars (l : List Char) : List Char :=
  ((l.dropWhile Char.isWhitespace).reverse.dropWhile Char.isWhitespace).reverse

/-- Loop of `NumberConsoleInNode::give_value`: read lines until one parses
as a `Number`, printing `Please enter a valid integer` on each failure.
On exhausted stdin the source re-reads an empty line forever; modelled as
yielding no value. -/
def NumberConsoleInNode.read_loop :
    List (List Char) → List OutItem → Option Number × List (List Char) × List OutItem
  | [], out => (Option.none, [], out)
  | line :: rest, out =>
    match Number.from_str (trimChars line) with
    | .ok v => (some v, rest, out)
    | .error _ => NumberConsoleInNode.read_loop rest (out ++ [OutItem.promptErr])

/-- Combined `node.give_value().take()` as performed by consumers: yields
the pending value, clears the producer's `give_value` slot, and performs
the console readers' refill side effects.  Calling it on a writer node is
`unreachable!()` in the source; modelled as yielding nothing. -/
def Node.take_give_value (n : Node) (stdin : List (List Char)) (stdout : List OutItem) :
    Option Number × Node × List (List Char) × List OutItem :=
  match n with
  | .instr m => (m.give_value, .instr { m with give_value := Option.none }, stdin, stdout)
  | .consoleOut m => (Option.none, .consoleOut m, stdin, stdout)
  | .numberConsoleOut m => (Option.none, .numberConsoleOut m, stdin, stdout)
  | .consoleIn m =>
    match m.take_value stdin with
    | (v, m1, stdin1) => (v, .consoleIn m1, stdin1, stdout)
  | .numberConsoleIn m =>
    match NumberConsoleInNode.read_loop stdin stdout with
    | (v, stdin1, stdout1) =>
      (v, .numberConsoleIn { m with give_value := Option.none }, stdin1, stdout1)

/-- Selection update shared by every reader's `Any` branch: on the first
interest `set_giving_to(reader_dir)`; on a later interest
`set_giving_to(prev.min(reader_dir))`, keeping the smaller direction in
the order `Up < Left < Right < Down`. -/
def anyOfferSelect (prev : Option Direction) (reader_dir : Direction) : Direction :=
  match prev with
  | Option.none => reader_dir
  | some p => p.min reader_dir

/-- Embedding of the `Register::Direction` arm of
`InstructionNode::get_value` (the reader is the node at `self_pos`, reading
from its neighbor in `direction`): inspect the neighbor's port and either
block (possibly registering interest) or consume a `Given` value. -/
def getValueDir (w : TIS) (self_pos : Position) (direction : Direction) :
    Option Number × TIS :=
  let npos := self_pos.in_direction direction
  match w.findNode npos with
  | Option.none => (Option.none, w)
  | some node =>
    match node.give with
    | .None => (Option.none, w)
    | .Any =>
      (Option.none,
        w.setNode npos (node.set_giving_to (anyOfferSelect node.giving_to direction.opposite)))
    | .Direction giving_direction =>
      if giving_direction = direction.opposite then
        (Option.none, w.setNode npos (node.set_giving_to direction.opposite))
      else
        (Option.none, w)
    | .Given =>
      match node.take_give_value w.stdin w.stdout with
      | (v, node1, stdin1, stdout1) =>
        (v, { nodes := (w.setNode npos node1).nodes, stdin := stdin1, stdout := stdout1 })

/-- Embedding of the loop in the `Register::Any` arm of
`InstructionNode::get_value`: walk the directions in order; skip absent
neighbors, idle ports, and mismatching directed offers; stop (returning no
value) at the first `Any` offer or matching directed offer after
registering interest; consume and return at the first `Given`. -/
def getValueAnyGo (w : TIS) (self_pos : Position) :
    List Direction → Option Number × TIS
  | [] => (Option.none, w)
  | direction :: rest =>
    let npos := self_pos.in_direction direction
    match w.findNode npos with
    | Option.none => getValueAnyGo w self_pos rest
    | some node =>
      match node.give with
      | .None => getValueAnyGo w self_pos rest
      | .Any =>
        (Option.none,
          w.setNode npos (node.set_giving_to (anyOfferSelect node.giving_to direction.opposite)))
      | .Direction giving_direction =>
        if giving_direction = direction.opposite then
          (Option.none, w.setNode npos (node.set_giving_to direction.opposite))
        else
          getValueAnyGo w self_pos rest
      | .Given =>
        match node.take_give_value w.stdin w.stdout with
        | (v, node1, stdin1, stdout1) =>
          (v, { nodes := (w.setNode npos node1).nodes, stdin := stdin1, stdout := stdout1 })

/-- Embedding of `InstructionNode::get_value`.  The `Last` arm with a
recorded direction recurses into the `Direction` arm, embedded here by
calling `getValueDir` directly. -/
def InstructionNode.get_value (w : TIS) (n : InstructionNode) (r : Register) :
    Option Number × TIS :=
  match r with
  | .Accumulator => (some n.accumulator, w)
  | .Nil => (some Number.new, w)
  | .Direction direction => getValueDir w n.position direction
  | .Any => getValueAnyGo w n.position Direction.all
  | .Last =>
    match n.last with
    | Option.none => (some Number.new, w)
    | some direction => getValueDir w n.position direction

/-- Embedding of `InstructionNode::set_value`: returns the updated node and
the `bool` telling the caller to skip the pointer increment (true exactly
when the value was staged in `give_value`). -/
def InstructionNode.set_value (n : InstructionNode) (r : Register) (v : Number) :
    InstructionNode × Bool :=
  match r with
  | .Accumulator => ({ n with accumulator := v }, false)
  | .Nil => (n, false)
  | .Direction _ => ({ n with give_value := some v }, true)
  | .Any => ({ n with give_value := some v }, true)
  | .Last =>
    if n.last.isSome then ({ n with give_value := some v }, true) else (n, false)

/-- Evaluation of a `RegisterOrNumber` source operand: a literal never
blocks; a register goes through `get_value`. -/
def InstructionNode.evalSource (w : TIS) (n : InstructionNode) (src : RegisterOrNumber) :
    Option Number × TIS :=
  match src with
  | .Register r => n.get_value w r
  | .Number v => (some v, w)

/-- Label lookup in the node's `labels` map.  A missing label makes the
source panic; the embedding returns `none` and the interpreter leaves the
node unchanged in that (never exercised) case. -/
def labelsLookup (labels : List (String × Nat)) (s : String) : Option Nat :=
  (labels.find? (fun q => q.1 = s)).map (fun q => q.2)

/-- Decode index used at the start of `InstructionNode::tick`: the stored
pointer, wrapped to 0 when it is at or past the end of the program. -/
def InstructionNode.decode_ptr (n : InstructionNode) : Nat :=
  if n.ptr ≥ n.instructions.length then 0 else n.ptr

/-- Embedding of `InstructionNode::tick` (phase A step).  Early return when
the program is empty or a transfer is pending (`give ≠ None`); otherwise
wrap the pointer, decode, execute one instruction, and write the node
back.  A blocked port read returns after keeping the side effects already
performed (interest registered on a neighbor, pointer wrap). -/
def InstructionNode.tick (w : TIS) (n : InstructionNode) : TIS :=
  if n.instructions = [] then w
  else if n.give ≠ DirectionGiving.None then w
  else
    let n1 := { n with ptr := n.decode_ptr }
    match n1.instructions[n1.ptr]? with
    | Option.none => w
    | some instruction =>
      match instruction with
      | .Noop => w.setNode n1.position (.instr { n1 with ptr := n1.ptr + 1 })
      | .Move src dst =>
        match n1.evalSource w src with
        | (Option.none, w1) => w1.setNode n1.position (.instr n1)
        | (some v, w1) =>
          match n1.set_value dst v with
          | (n2, skip) =>
            let n3 := if skip then n2 else { n2 with ptr := n2.ptr + 1 }
            w1.setNode n1.position (.instr n3)
      | .Swap =>
        w.setNode n1.position
          (.instr { n1 with accumulator := n1.backup, backup := n1.accumulator, ptr := n1.ptr + 1 })
      | .Save =>
        w.setNode n1.position (.instr { n1 with backup := n1.accumulator, ptr := n1.ptr + 1 })
      | .Add src =>
        match n1.evalSource w src with
        | (Option.none, w1) => w1.setNode n1.position (.instr n1)
        | (some v, w1) =>
          w1.setNode n1.position
            (.instr { n1 with accumulator := n1.accumulator.add_assign v, ptr := n1.ptr + 1 })
      | .Subtract src =>
        match n1.evalSource w src with
        | (Option.none, w1) => w1.setNode n1.position (.instr n1)
        | (some v, w1) =>
          w1.setNode n1.position
            (.instr { n1 with accumulator := n1.accumulator.sub_assign v, ptr := n1.ptr + 1 })
      | .Negate =>
        w.setNode n1.position
          (.instr { n1 with accumulator := n1.accumulator.negate, ptr := n1.ptr + 1 })
      | .Jump label =>
        match labelsLookup n1.labels label with
        | some t => w.setNode n1.position (.instr { n1 with ptr := t })
        | Option.none => w
      | .JumpEqualZero label =>
        if n1.accumulator.is_zero then
          match labelsLookup n1.labels label with
          | some t => w.setNode n1.position (.instr { n1 with ptr := t })
          | Option.none => w
        else
          w.setNode n1.position (.instr { n1 with ptr := n1.ptr + 1 })
      | .JumpNotZero label =>
        if n1.accumulator.is_zero then
          w.setNode n1.position (.instr { n1 with ptr := n1.ptr + 1 })
        else
          match labelsLookup n1.labels label with
          | some t => w.setNode n1.position (.instr { n1 with ptr := t })
          | Option.none => w
      | .JumpGreaterThanZero label =>
        if n1.accumulator.value > 0 then
          match labelsLookup n1.labels label with
          | some t => w.setNode n1.position (.instr { n1 with ptr := t })
          | Option.none => w
        else
          w.setNode n1.position (.instr { n1 with ptr := n1.ptr + 1 })
      | .JumpLessThanZero label =>
        if n1.accumulator.value < 0 then
          match labelsLookup n1.labels label with
          | some t => w.setNode n1.position (.instr { n1 with ptr := t })
          | Option.none => w
        else
          w.setNode n1.position (.instr { n1 with ptr := n1.ptr + 1 })
      | .JumpRelative src =>
        match n1.evalSource w src with
        | (Option.none, w1) => w1.setNode n1.position (.instr n1)
        | (some v, w1) =>
          w1.setNode n1.position
            (.instr { n1 with ptr := (max 0 ((n1.ptr : Int) + v.value)).toNat })

/-- Embedding of `InstructionNode::handle_give` (phase B commit): when the
port is idle and a value is staged, the current instruction is the `Move`
that staged it; for a port destination the pointer advances past the
`Move` and the port opens as `Direction(d)`, `Any`, or `Direction(last)`.
Indexing past the end of the program panics in the source; modelled as no
change. -/
def InstructionNode.handle_give (n : InstructionNode) : InstructionNode :=
  if n.give = DirectionGiving.None ∧ n.give_value.isSome then
    match n.instructions[n.ptr]? with
    | some (.Move _ register) =>
      match register with
      | .Direction d => { n with ptr := n.ptr + 1, give := .Direction d }
      | .Any => { n with ptr := n.ptr + 1, give := .Any }
      | .Last =>
        match n.last with
        | some d => { n with ptr := n.ptr + 1, give := .Direction d }
        | Option.none => n
      | _ => n
    | _ => n
  else n

/-- Embedding of `InstructionNode::post_handle_give` (phase C): when a
receiver registered, record `last` for an `Any` offer, flip the port to
`Given`, and return the receiver's position. -/
def InstructionNode.post_handle_give (n : InstructionNode) :
    InstructionNode × Option Position :=
  match n.giving_to with
  | Option.none => (n, Option.none)
  | some giving_to =>
    let n1 := if n.give = DirectionGiving.Any then { n with last := some giving_to } else n
    ({ n1 with give := DirectionGiving.Given }, some (n.position.in_direction giving_to))

/-- Embedding of `InstructionNode::post_post_handle_give`: close the
transfer by resetting the port to `None`. -/
def InstructionNode.post_post_handle_give (n : InstructionNode) : InstructionNode :=
  if n.giving_to.isSome then
    { n with give := DirectionGiving.None, giving_to := Option.none }
  else n

/-- Embedding of `ConsoleInNode::post_handle_give`. -/
def ConsoleInNode.post_handle_give (n : ConsoleInNode) :
    ConsoleInNode × Option Position :=
  match n.giving_to with
  | Option.none => (n, Option.none)
  | some giving_to =>
    ({ n with give := DirectionGiving.Given }, some (n.position.in_direction giving_to))

/-- Embedding of `ConsoleInNode::post_post_handle_give`: reset the port to
`Any` unconditionally. -/
def ConsoleInNode.post_post_handle_give (n : ConsoleInNode) : ConsoleInNode :=
  { n with give := DirectionGiving.Any, giving_to := Option.none }

/-- Embedding of `NumberConsoleInNode::post_handle_give`. -/
def NumberConsoleInNode.post_handle_give (n : NumberConsoleInNode) :
    NumberConsoleInNode × Option Position :=
  match n.giving_to with
  | Option.none => (n, Option.none)
  | some giving_to =>
    ({ n with give := DirectionGiving.Given }, some (n.position.in_direction giving_to))

/-- Embedding of `NumberConsoleInNode::post_post_handle_give`. -/
def NumberConsoleInNode.post_post_handle_give (n : NumberConsoleInNode) : NumberConsoleInNode :=
  { n with give := DirectionGiving.Any, giving_to := Option.none }

/-- Body of the loop in `ConsoleOutNode::tick` for one direction: act as a
reader on the neighbor; on `Given`, consume the value, and when it lies in
[0, 256) print it as one byte and flush (modelled as a `charOut` event);
otherwise the value is dropped with no output. -/
def consoleOutVisit (w : TIS) (self_pos : Position) (direction : Direction) : TIS :=
  let npos := self_pos.in_direction direction
  match w.findNode npos with
  | Option.none => w
  | some node =>
    match node.give with
    | .None => w
    | .Any =>
      w.setNode npos (node.set_giving_to (anyOfferSelect node.giving_to direction.opposite))
    | .Direction giving_direction =>
      if giving_direction = direction.opposite then
        w.setNode npos (node.set_giving_to direction.opposite)
      else
        w
    | .Given =>
      match node.take_give_value w.stdin w.stdout with
      | (v, node1, stdin1, stdout1) =>
        let stdout2 :=
          match v with
          | some v =>
            if 0 ≤ v.value ∧ v.value < 256 then stdout1 ++ [OutItem.charOut v.value] else stdout1
          | Option.none => stdout1
        { nodes := (w.setNode npos node1).nodes, stdin := stdin1, stdout := stdout2 }

/-- Embedding of `ConsoleOutNode::tick`: visit the four directions in
order. -/
def ConsoleOutNode.tick (w : TIS) (n : ConsoleOutNode) : TIS :=
  Direction.all.foldl (fun w d => consoleOutVisit w n.position d) w

/-- Body of the loop in `NumberConsoleOutNode::tick` for one direction:
like the byte writer, but a consumed value is printed as a decimal integer
with a newline (a `numOut` event), with no range restriction. -/
def numberConsoleOutVisit (w : TIS) (self_pos : Position) (direction : Direction) : TIS :=
  let npos := self_pos.in_direction direction
  match w.findNode npos with
  | Option.none => w
  | some node =>
    match node.give with
    | .None => w
    | .Any =>
      w.setNode npos (node.set_giving_to (anyOfferSelect node.giving_to direction.opposite))
    | .Direction giving_direction =>
      if giving_direction = direction.opposite then
        w.setNode npos (node.set_giving_to direction.opposite)
      else
        w
    | .Given =>
      match node.take_give_value w.stdin w.stdout with
      | (v, node1, stdin1, stdout1) =>
        let stdout2 :=
          match v with
          | some v => stdout1 ++ [OutItem.numOut v.value]
          | Option.none => stdout1
        { nodes := (w.setNode npos node1).nodes, stdin := stdin1, stdout := stdout2 }

/-- Embedding of `NumberConsoleOutNode::tick`. -/
def NumberConsoleOutNode.tick (w : TIS) (n : NumberConsoleOutNode) : TIS :=
  Direction.all.foldl (fun w d => numberConsoleOutVisit w n.position d) w

/-- One phase-A step of the node at `p` (`node.borrow_mut().tick()`); the
console readers have an empty `tick`. -/
def tickAt (w : TIS) (p : Position) : TIS :=
  match w.findNode p with
  | Option.none => w
  | some (.instr n) => InstructionNode.tick w n
  | some (.consoleOut n) => ConsoleOutNode.tick w n
  | some (.consoleIn _) => w
  | some (.numberConsoleOut n) => NumberConsoleOutNode.tick w n
  | some (.numberConsoleIn _) => w

/-- One phase-B step of the node at `p` (`handle_give`), a no-op on all
console nodes. -/
def handleGiveAt (w : TIS) (p : Position) : TIS :=
  match w.findNode p with
  | some (.instr n) => w.setNode p (.instr n.handle_give)
  | _ => w

/-- Dispatch of `Node::post_handle_give`. -/
def Node.post_handle_give (n : Node) : Node × Option Position :=
  match n with
  | .instr m =>
    match m.post_handle_give with
    | (m1, r) => (.instr m1, r)
  | .consoleOut m => (.consoleOut m, Option.none)
  | .consoleIn m =>
    match m.post_handle_give with
    | (m1, r) => (.consoleIn m1, r)
  | .numberConsoleOut m => (.numberConsoleOut m, Option.none)
  | .numberConsoleIn m =>
    match m.post_handle_give with
    | (m1, r) => (.numberConsoleIn m1, r)

/-- Dispatch of `Node::post_post_handle_give`. -/
def Node.post_post_handle_give (n : Node) : Node :=
  match n with
  | .instr m => .instr m.post_post_handle_give
  | .consoleOut m => .consoleOut m
  | .consoleIn m => .consoleIn m.post_post_handle_give
  | .numberConsoleOut m => .numberConsoleOut m
  | .numberConsoleIn m => .numberConsoleIn m.post_post_handle_give

/-- One phase-C step of the node at `p`: run `post_handle_give`; when it
names a partner position, re-tick the partner (if present) and then run
`post_post_handle_give` on the node at `p` as it stands after the
partner's step. -/
def postHandleAt (w : TIS) (p : Position) : TIS :=
  match w.findNode p with
  | Option.none => w
  | some node =>
    match node.post_handle_give with
    | (node1, Option.none) => w.setNode p node1
    | (node1, some pos) =>
      let w2 := tickAt (w.setNode p node1) pos
      match w2.findNode p with
      | some node2 => w2.setNode p node2.post_post_handle_give
      | Option.none => w2

/-- Embedding of `TIS::tick`: the three phases, each iterating over the
node set.  The `HashMap` iteration order is unspecified but fixed within
one tick; it is passed in as `order`. -/
def TIS.tick (order : List Position) (w : TIS) : TIS :=
  let w1 := order.foldl tickAt w
  let w2 := order.foldl handleGiveAt w1
  order.foldl postHandleAt w2

/-- Embedding of `TIS::add_node` (which panics when the position is
occupied; callers establish that).  Neighbor cross-linking is implicit in
the positional neighbor lookup of the embedding. -/
def TIS.add_node (w : TIS) (n : Node) : TIS :=
  { w with nodes := w.nodes ++ [(n.position, n)] }

/-! ### Helpers for stating and proving the claims -/

/-- Projection of the compute node stored at a position (defaulting to an
inert empty node, used only to state theorems about positions that do hold
a compute node). -/
def instrAt (w : TIS) (p : Position) : InstructionNode :=
  match w.findNode p with
  | some (.instr n) => n
  | _ => InstructionNode.new p [] []

/-- Decimal value of a digit string (the unsaturated mathematical value),
starting from accumulator `v`. -/
def digitsValFrom (v : Int) (l : List Char) : Int :=
  l.foldl (fun v c => v * 10 + ((c.toNat : Int) - 48)) v

/-- Decimal value of a digit string. -/
def digitsVal (l : List Char) : Int := digitsValFrom 0 l

/-- Character list after the optional leading minus sign. -/
def digitsPart (s : List Char) : List Char :=
  match s with
  | [] => []
  | c :: rest => if c = '-' then rest else s

/-- Sign factor contributed by the optional leading minus sign. -/
def signFactor (s : List Char) : Int :=
  match s with
  | [] => 1
  | c :: _ => if c = '-' then -1 else 1

lemma isDigit_bounds (c : Char) (hc : c.isDigit = true) :
    48 ≤ c.toNat ∧ c.toNat ≤ 57 := by
  simp [Char.isDigit] at hc
  exact ⟨hc.1, hc.2⟩

lemma digitsValFrom_ge (l : List Char) : ∀ v : Int, 0 ≤ v →
    (∀ c ∈ l, c.isDigit = true) → v ≤ digitsValFrom v l := by
  induction l with
  | nil => intro v _ _; simp [digitsValFrom]
  | cons c cs ih =>
    intro v hv hd
    obtain ⟨hb1, hb2⟩ := isDigit_bounds c (hd c (by simp))
    have step : v ≤ v * 10 + ((c.toNat : Int) - 48) := by nlinarith [Int.ofNat_le.mpr hb1]
    have h0 : 0 ≤ v * 10 + ((c.toNat : Int) - 48) := by omega
    have htail := ih (v * 10 + ((c.toNat : Int) - 48)) h0 (fun x hx => hd x (by simp [hx]))
    calc v ≤ v * 10 + ((c.toNat : Int) - 48) := step
      _ ≤ digitsValFrom (v * 10 + ((c.toNat : Int) - 48)) cs := htail
      _ = digitsValFrom v (c :: cs) := by simp [digitsValFrom, List.foldl]

lemma from_str_go_isOk (l : List Char) : ∀ v : Int,
    (Number.from_str_go l v).isOk = l.all Char.isDigit := by
  induction l with
  | nil => intro v; simp [Number.from_str_go, Except.isOk, Except.toBool]
  | cons c cs ih =>
    intro v
    by_cases hc : c.isDigit = true
    · simp [Number.from_str_go, hc, ih]
    · have hcf : c.isDigit = false := by simpa using hc
      simp [Number.from_str_go, hcf, Except.isOk, Except.toBool]

lemma from_str_go_val (l : List Char) : ∀ v : Int, 0 ≤ v → v ≤ 999 →
    (∀ c ∈ l, c.isDigit = true) →
    Number.from_str_go l v = .ok (min (digitsValFrom v l) 999) := by
  induction l with
  | nil =>
    intro v h0 h9 _
    simp [Number.from_str_go, digitsValFrom]
    omega
  | cons c cs ih =>
    intro v h0 h9 hd
    obtain ⟨hb1, hb2⟩ := isDigit_bounds c (hd c (by simp))
    have hc : c.isDigit = true := hd c (by simp)
    have hrest : ∀ x ∈ cs, x.isDigit = true := fun x hx => hd x (by simp [hx])
    have hnext0 : 0 ≤ v * 10 + ((c.toNat : Int) - 48) := by omega
    have hunf : digitsValFrom v (c :: cs)
        = digitsValFrom (v * 10 + ((c.toNat : Int) - 48)) cs := by
      simp [digitsValFrom, List.foldl]
    rw [show Number.from_str_go (c :: cs) v
        = Number.from_str_go cs (min (v * 10 + ((c.toNat : Int) - 48)) 999) by
      simp [Number.from_str_go, hc]]
    rw [ih _ (by omega) (by omega) hrest]
    congr 1
    rw [hunf]
    by_cases hlt : v * 10 + ((c.toNat : Int) - 48) ≤ 999
    · rw [min_eq_left hlt]
    · rw [show min (v * 10 + ((c.toNat : Int) - 48)) 999 = 999 from min_eq_right (by omega)]
      have g1 : (999 : Int) ≤ digitsValFrom 999 cs :=
        digitsValFrom_ge cs 999 (by omega) hrest
      have g2 : v * 10 + ((c.toNat : Int) - 48)
          ≤ digitsValFrom (v * 10 + ((c.toNat : Int) - 48)) cs :=
        digitsValFrom_ge cs _ hnext0 hrest
      omega

/-! ### C5 -/

/-- C5: Number values always lie in [-999, 999]: every clamp lands in the
range; the wide `From` conversions yield `clamp(n, -999, 999)` (the narrow
`i8`/`u8` ones coincide with the clamp on their domains); `+`, `-`, unary
`-`, `+=`, `-=` clamp the exact mathematical result after the operation;
and in particular an accumulator at 990 saturates at 999 after
`add 20, add 20`. -/
theorem C5_number_saturation :
    (∀ n : Int, -999 ≤ clamp999 n ∧ clamp999 n ≤ 999)
    ∧ (∀ n : Int, (Number.fromInt n).value = clamp999 n)
    ∧ (∀ n : Nat, (Number.fromUnsigned n).value = clamp999 (n : Int))
    ∧ (∀ n : Int, -128 ≤ n → n ≤ 127 → (Number.from_i8 n).value = clamp999 n)
    ∧ (∀ n : Nat, n ≤ 255 → (Number.from_u8 n).value = clamp999 (n : Int))
    ∧ (∀ a b : Number, (a.add b).value = clamp999 (a.value + b.value))
    ∧ (∀ a b : Number, (a.sub b).value = clamp999 (a.value - b.value))
    ∧ (∀ a : Number, a.negate.value = clamp999 (-a.value))
    ∧ (∀ a b : Number, (a.add_assign b).value = clamp999 (a.value + b.value))
    ∧ (∀ a b : Number, (a.sub_assign b).value = clamp999 (a.value - b.value))
    ∧ ((Number.fromInt 990).add_assign (Number.fromInt 20)
        |>.add_assign (Number.fromInt 20)) = Number.fromInt 999 := by
  refine ⟨?_, ?_, ?_, ?_, ?_, ?_, ?_, ?_, ?_, ?_, ?_⟩
  · intro n; unfold clamp999; omega
  · intro n; rfl
  · intro n; simp [Number.fromUnsigned, Number.value, clamp999]; omega
  · intro n h1 h2; simp [Number.from_i8, Number.value, clamp999]; omega
  · intro n h; simp [Number.from_u8, Number.value, clamp999]; omega
  · intro a b; rfl
  · intro a b; rfl
  · intro a; rfl
  · intro a b; rfl
  · intro a b; rfl
  · decide

/-- Closed witness for C5, discharging the hypotheses of the `i8`/`u8`
conjuncts at concrete inputs. -/
theorem C5_number_saturation_witness :
    (Number.from_i8 (-5)).value = clamp999 (-5)
    ∧ (Number.from_u8 200).value = clamp999 (200 : Int) :=
  ⟨C5_number_saturation.2.2.2.1 (-5) (by decide) (by decide),
   C5_number_saturation.2.2.2.2.1 200 (by decide)⟩

/-! ### C7 -/

/-- C7 counterexample: the single-character string `-` — an optional minus
sign followed by zero digits — parses successfully to 0, so parsing does
not return an error on every string lacking a digit after the optional
sign, contrary to the claim. -/
theorem C7_counterexample :
    Number.from_str ['-'] = Except.ok (Number.fromInt 0) := rfl

/-- C7 (amended): parsing succeeds exactly for a nonempty string whose
characters after an optional leading minus are all decimal digits — zero
digits are allowed, so `-` alone parses (to 0); every other string errors.
On success, the result is the digits' value saturated at 999 and then
negated if the minus was present. -/
theorem C7_amended (s : List Char) :
    ((Number.from_str s).isOk = ((!s.isEmpty) && (digitsPart s).all Char.isDigit))
    ∧ (s ≠ [] → (∀ c ∈ digitsPart s, c.isDigit = true) →
        Number.from_str s =
          Except.ok (Number.fromInt (signFactor s * min (digitsVal (digitsPart s)) 999))) := by
  constructor
  · match s with
    | [] => simp [Number.from_str, Except.isOk, Except.toBool]
    | c :: rest =>
      simp only [List.isEmpty_cons, Bool.not_false, Bool.true_and]
      by_cases hc : c = '-'
      · rw [show digitsPart (c :: rest) = rest by simp [digitsPart, hc]]
        rw [← from_str_go_isOk rest 0]
        simp only [Number.from_str, hc, if_pos rfl]
        rcases hgo : Number.from_str_go rest 0 with e | v <;>
          simp [hgo, Except.isOk, Except.toBool]
      · rw [show digitsPart (c :: rest) = c :: rest by simp [digitsPart, hc]]
        rw [← from_str_go_isOk (c :: rest) 0]
        simp only [Number.from_str, hc, if_neg hc]
        rcases hgo : Number.from_str_go (c :: rest) 0 with e | v <;>
          simp [hgo, Except.isOk, Except.toBool]
  · intro hne hdig
    match s with
    | c :: rest =>
      by_cases hc : c = '-'
      · subst hc
        rw [show digitsPart ('-' :: rest) = rest by simp [digitsPart]] at hdig
        have hgo := from_str_go_val rest 0 (by omega) (by omega) hdig
        rw [show digitsPart ('-' :: rest) = rest by simp [digitsPart]]
        have hs : signFactor ('-' :: rest) = -1 := by simp [signFactor]
        rw [hs]
        have hv : -1 * min (digitsVal rest) 999 = -(min (digitsValFrom 0 rest) 999) := by
          unfold digitsVal
          ring
        rw [hv]
        simp [Number.from_str, hgo]
      · rw [show digitsPart (c :: rest) = c :: rest by simp [digitsPart, hc]] at hdig
        have hgo := from_str_go_val (c :: rest) 0 (by omega) (by omega) hdig
        rw [show digitsPart (c :: rest) = c :: rest by simp [digitsPart, hc]]
        have hs : signFactor (c :: rest) = 1 := by simp [signFactor, hc]
        rw [hs, one_mul]
        simp [Number.from_str, hc, hgo, digitsVal]

/-- Closed witness for C7 (amended): `-12` parses to -12. -/
theorem C7_amended_witness :
    Number.from_str ['-', '1', '2'] =
      Except.ok (Number.fromInt (signFactor ['-', '1', '2']
        * min (digitsVal (digitsPart ['-', '1', '2'])) 999)) :=
  (C7_amended ['-', '1', '2']).2 (by decide) (by decide)

/-! ### C2 -/

/-- Concrete world for the C2 counterexample: one compute node whose
program is the single instruction `nop`. -/
def wC2 : TIS :=
  TIS.add_node ⟨[], [], []⟩ (.instr (InstructionNode.new ⟨0, 0⟩ [] [.Noop]))

/-- C2 counterexample: after one full global tick (through phase C) of a
single-`nop` program, the stored pointer equals the program length 1, so
`0 ≤ ptr < max(1, len(instructions))` fails after phase C; the pointer
wraps to 0 only at the start of the next tick. -/
theorem C2_counterexample :
    (instrAt (TIS.tick [⟨0, 0⟩] wC2) ⟨0, 0⟩).ptr = 1
    ∧ (instrAt (TIS.tick [⟨0, 0⟩] wC2) ⟨0, 0⟩).instructions.length = 1
    ∧ ¬ ((instrAt (TIS.tick [⟨0, 0⟩] wC2) ⟨0, 0⟩).ptr
        < max 1 (instrAt (TIS.tick [⟨0, 0⟩] wC2) ⟨0, 0⟩).instructions.length) := by
  decide

/-- C2 (amended): the bound `0 ≤ ptr < max(1, len(instructions))` holds at
the moment an instruction is decoded — the wrap at the start of the
phase-A step maps any out-of-range stored pointer to 0 — not after phase
C, where the stored pointer may equal or exceed the program length (see
the counterexample). -/
theorem C2_amended (n : InstructionNode) (h : n.instructions ≠ []) :
    n.decode_ptr < max 1 n.instructions.length
    ∧ (n.instructions.length ≤ n.ptr → n.decode_ptr = 0)
    ∧ (n.ptr < n.instructions.length → n.decode_ptr = n.ptr) := by
  have hlen : 0 < n.instructions.length := List.length_pos.mpr h
  unfold InstructionNode.decode_ptr
  refine ⟨?_, ?_, ?_⟩ <;> split <;> omega

/-- Closed witness for C2 (amended) on a one-instruction program with the
stored pointer already past the end. -/
theorem C2_amended_witness :
    ({ InstructionNode.new ⟨0, 0⟩ [] [.Noop] with ptr := 1 } : InstructionNode).decode_ptr
      < max 1 ({ InstructionNode.new ⟨0, 0⟩ [] [.Noop] with ptr := 1 } : InstructionNode).instructions.length :=
  (C2_amended { InstructionNode.new ⟨0, 0⟩ [] [.Noop] with ptr := 1 } (by decide)).1

/-! ### C4 -/

/-- C4: a compute node that is mid-transfer (`give ≠ None`) or has an
empty program does nothing in its phase-A step: the whole world — its own
pointer, registers, port fields, and every neighbor — is unchanged. -/
theorem C4_blocked_tick_is_noop (w : TIS) (p : Position) (n : InstructionNode)
    (hfind : w.findNode p = some (.instr n))
    (hblocked : n.give ≠ DirectionGiving.None ∨ n.instructions = []) :
    tickAt w p = w := by
  have hstep : tickAt w p = InstructionNode.tick w n := by
    unfold tickAt
    rw [hfind]
  rw [hstep]
  unfold InstructionNode.tick
  by_cases he : n.instructions = []
  · rw [if_pos he]
  · rcases hblocked with hg | he2
    · rw [if_neg he, if_pos hg]
    · exact absurd he2 he

/-- Concrete world for the C4 witness: a compute node mid-transfer. -/
def wC4 : TIS :=
  ⟨[(⟨0, 0⟩, .instr { InstructionNode.new ⟨0, 0⟩ [] [.Noop] with give := DirectionGiving.Any })],
    [], []⟩

/-- Closed witness for C4: the phase-A step of the mid-transfer node
leaves the world unchanged. -/
theorem C4_blocked_tick_is_noop_witness : tickAt wC4 ⟨0, 0⟩ = wC4 :=
  C4_blocked_tick_is_noop wC4 ⟨0, 0⟩
    { InstructionNode.new ⟨0, 0⟩ [] [.Noop] with give := DirectionGiving.Any }
    (by decide) (Or.inl (by decide))

/-! ### C9 -/

/-- C9: with `last` unset, reading the `Last` register yields 0 at once —
exactly like reading `Nil` — without blocking and without touching any
neighbor (the world is returned unchanged); adding such a read adds 0 to
the accumulator and advances the pointer. -/
theorem C9_last_unset_reads_zero (w : TIS) (n : InstructionNode)
    (hlast : n.last = Option.none) :
    n.get_value w Register.Last = (some Number.new, w)
    ∧ n.get_value w Register.Nil = (some Number.new, w)
    ∧ (∀ a : Number, -999 ≤ a.value → a.value ≤ 999 → a.add_assign Number.new = a)
    ∧ (n.give = DirectionGiving.None →
        n.instructions = [.Add (.Register .Last)] →
        n.ptr = 0 →
        InstructionNode.tick w n =
          w.setNode n.position
            (.instr { n with accumulator := n.accumulator.add_assign Number.new, ptr := 1 })) := by
  refine ⟨?_, ?_, ?_, ?_⟩
  · simp [InstructionNode.get_value, hlast]
  · simp [InstructionNode.get_value]
  · intro a h1 h2
    cases a with
    | mk v =>
      simp [Number.add_assign, Number.set_value, Number.value, clamp999, Number.new] at h1 h2 ⊢
      omega
  · intro hg hi hp
    unfold InstructionNode.tick
    rw [if_neg (by simp [hi]), if_neg (by simp [hg])]
    have hd : n.decode_ptr = 0 := by
      unfold InstructionNode.decode_ptr
      rw [hi, hp]
      simp
    rw [hd]
    have heta : ({ n with ptr := 0 } : InstructionNode) = n := by
      cases n
      simp_all
    rw [heta]
    dsimp only
    rw [hi, hp]
    simp [InstructionNode.evalSource, InstructionNode.get_value, hlast]

/-- Concrete node and world for the C9 witness. -/
def nC9 : InstructionNode :=
  { InstructionNode.new ⟨0, 0⟩ [] [.Add (.Register .Last)] with
      accumulator := Number.fromInt 7 }

/-- Closed witness for C9: the concrete `add last` node reads 0 and
advances. -/
theorem C9_last_unset_reads_zero_witness :
    nC9.get_value ⟨[], [], []⟩ Register.Last = (some Number.new, (⟨[], [], []⟩ : TIS))
    ∧ InstructionNode.tick ⟨[], [], []⟩ nC9 =
        TIS.setNode ⟨[], [], []⟩ nC9.position
          (.instr { nC9 with accumulator := nC9.accumulator.add_assign Number.new, ptr := 1 }) :=
  ⟨(C9_last_unset_reads_zero ⟨[], [], []⟩ nC9 (by decide)).1,
   (C9_last_unset_reads_zero ⟨[], [], []⟩ nC9 (by decide)).2.2.2 (by decide) (by decide) (by decide)⟩

/-! ### C1 -/

lemma dmin_fact (a b : Direction) :
    (a.min b = a ∨ a.min b = b) ∧ (a.min b).idx ≤ a.idx ∧ (a.min b).idx ≤ b.idx := by
  cases a <;> cases b <;> decide

lemma foldl_anyOfferSelect_some (ds : List Direction) : ∀ d0 : Direction,
    List.foldl (fun gt r => some (anyOfferSelect gt r)) (some d0) ds
      = some (List.foldl Direction.min d0 ds) := by
  induction ds with
  | nil => intro d0; rfl
  | cons r rs ih => intro d0; simpa [anyOfferSelect] using ih (d0.min r)

lemma foldl_min_mem (ds : List Direction) : ∀ d0 : Direction,
    List.foldl Direction.min d0 ds ∈ d0 :: ds := by
  induction ds with
  | nil => intro d0; simp
  | cons r rs ih =>
    intro d0
    rw [List.foldl_cons]
    rcases List.mem_cons.mp (ih (d0.min r)) with h1 | h1
    · rw [h1]
      rcases (dmin_fact d0 r).1 with h | h <;> rw [h] <;> simp
    · simp [List.mem_cons.mpr (Or.inr h1)]

lemma foldl_min_le (ds : List Direction) : ∀ d0 : Direction, ∀ x ∈ d0 :: ds,
    (List.foldl Direction.min d0 ds).idx ≤ x.idx := by
  induction ds with
  | nil =>
    intro d0 x hx
    simp at hx
    subst hx
    simp
  | cons r rs ih =>
    intro d0 x hx
    rw [List.foldl_cons]
    rcases List.mem_cons.mp hx with h | h
    · rw [h]
      have h1 := ih (d0.min r) (d0.min r) (by simp)
      have h2 := (dmin_fact d0 r).2.1
      omega
    · rcases List.mem_cons.mp h with h | h
      · rw [h]
        have h1 := ih (d0.min r) (d0.min r) (by simp)
        have h2 := (dmin_fact d0 r).2.2
        omega
      · exact ih (d0.min r) x (List.mem_cons.mpr (Or.inr h))

/-- C1: when a reader in direction `d` finds its neighbor offering on
`Any` with a previously recorded interest `prev`, the neighbor's
`giving_to` becomes `min prev (opposite d)` under `Up < Left < Right <
Down` and the read still blocks; consequently, registering any nonempty
sequence of contending reader directions leaves `giving_to` bound to the
smallest of them. -/
theorem C1_any_tiebreak :
    (∀ (w : TIS) (p : Position) (d : Direction) (node : Node) (prev : Direction),
      w.findNode (p.in_direction d) = some node →
      node.give = DirectionGiving.Any →
      node.giving_to = some prev →
      getValueDir w p d =
        (Option.none,
          w.setNode (p.in_direction d) (node.set_giving_to (prev.min d.opposite))))
    ∧ (∀ (d0 : Direction) (ds : List Direction),
        List.foldl (fun gt r => some (anyOfferSelect gt r)) Option.none (d0 :: ds)
          = some (List.foldl Direction.min d0 ds)
        ∧ List.foldl Direction.min d0 ds ∈ d0 :: ds
        ∧ ∀ x ∈ d0 :: ds, (List.foldl Direction.min d0 ds).idx ≤ x.idx) := by
  constructor
  · intro w p d node prev hfind hgive hgt
    simp [getValueDir, hfind, hgive, hgt, anyOfferSelect]
  · intro d0 ds
    refine ⟨?_, foldl_min_mem ds d0, foldl_min_le ds d0⟩
    rw [List.foldl_cons]
    simpa [anyOfferSelect] using foldl_anyOfferSelect_some ds d0

/-- Concrete offering node for the C1 witness: an `Any` offer with prior
interest from `Down`. -/
def nC1 : Node :=
  .instr { InstructionNode.new ⟨1, 0⟩ [] [] with
      give := DirectionGiving.Any, giving_to := some Direction.Down }

/-- Concrete world for the C1 witness. -/
def wC1 : TIS := ⟨[(⟨1, 0⟩, nC1)], [], []⟩

/-- Closed witness for C1: a reader at the origin reading rightwards binds
the offerer to `min Down Left = Left`. -/
theorem C1_any_tiebreak_witness :
    getValueDir wC1 ⟨0, 0⟩ Direction.Right =
      (Option.none,
        wC1.setNode (Position.in_direction ⟨0, 0⟩ Direction.Right)
          (nC1.set_giving_to (Direction.min Direction.Down
            (Direction.opposite Direction.Right)))) :=
  C1_any_tiebreak.1 wC1 ⟨0, 0⟩ Direction.Right nC1 Direction.Down rfl rfl rfl

/-! ### C6 -/

/-- C6: executing `JumpRelative(src)` with the pointer in range: when the
source is a port read yielding no value, the step ends with the node
written back unchanged (the pointer keeps its value; side effects of the
failed read persist in the world); otherwise the pointer becomes
`max(0, ptr + value)` — clamped below at 0, not clamped above — and any
out-of-range pointer is mapped to 0 only by the decode wrap at the start
of the next tick's step. -/
theorem C6_jump_relative :
    (∀ (w w1 : TIS) (n : InstructionNode) (src : RegisterOrNumber),
      n.give = DirectionGiving.None →
      n.ptr < n.instructions.length →
      n.instructions[n.ptr]? = some (.JumpRelative src) →
      (n.evalSource w src = (Option.none, w1) →
        InstructionNode.tick w n = w1.setNode n.position (.instr n))
      ∧ (∀ v : Number, n.evalSource w src = (some v, w1) →
        InstructionNode.tick w n =
          w1.setNode n.position
            (.instr { n with ptr := (max 0 ((n.ptr : Int) + v.value)).toNat })))
    ∧ (∀ n : InstructionNode, n.instructions.length ≤ n.ptr → n.decode_ptr = 0) := by
  constructor
  · intro w w1 n src hg hlt hidx
    have hne : n.instructions ≠ [] := by
      intro h
      rw [h] at hlt
      simp at hlt
    have hd : n.decode_ptr = n.ptr := by
      unfold InstructionNode.decode_ptr
      rw [if_neg (by omega)]
    have heta : ({ n with ptr := n.ptr } : InstructionNode) = n := rfl
    constructor
    · intro hblocked
      unfold InstructionNode.tick
      rw [if_neg hne, if_neg (by simp [hg])]
      dsimp only
      rw [hd, heta, hidx]
      dsimp only
      rw [hblocked]
    · intro v hval
      unfold InstructionNode.tick
      rw [if_neg hne, if_neg (by simp [hg])]
      dsimp only
      rw [hd, heta, hidx]
      dsimp only
      rw [hval]
  · intro n h
    unfold InstructionNode.decode_ptr
    rw [if_pos (by omega)]

/-- Concrete node for the C6 witness: `jro -5` at pointer 0 in a
three-instruction program. -/
def nC6 : InstructionNode :=
  InstructionNode.new ⟨0, 0⟩ []
    [.JumpRelative (.Number (Number.fromInt (-5))), .Noop, .Noop]

/-- Closed witness for C6: `jro -5` at pointer 0 clamps the pointer to 0
(`max 0 (0 - 5) = 0`). -/
theorem C6_jump_relative_witness :
    InstructionNode.tick ⟨[], [], []⟩ nC6 =
      TIS.setNode ⟨[], [], []⟩ nC6.position
        (.instr { nC6 with
          ptr := (max 0 ((nC6.ptr : Int) + (Number.fromInt (-5)).value)).toNat }) :=
  (C6_jump_relative.1 ⟨[], [], []⟩ ⟨[], [], []⟩ nC6 (.Number (Number.fromInt (-5)))
      (by decide) (by decide) (by decide)).2 (Number.fromInt (-5)) (by decide)

/-! ### C8 -/

/-- C8: when the byte writer visits a neighbor whose port is `Given` with
pending value `v`, it consumes the value — the neighbor's `give_value`
slot is emptied in every case — and emits the single byte `v` (with a
flush) exactly when `0 ≤ v < 256`; otherwise the value is silently
dropped: no output event and no error. -/
theorem C8_console_out_byte (w : TIS) (p : Position) (d : Direction)
    (m : InstructionNode) (v : Number)
    (hfind : w.findNode (p.in_direction d) = some (.instr m))
    (hgive : m.give = DirectionGiving.Given)
    (hval : m.give_value = some v) :
    consoleOutVisit w p d =
      { nodes := (w.setNode (p.in_direction d)
          (.instr { m with give_value := Option.none })).nodes,
        stdin := w.stdin,
        stdout := w.stdout
          ++ (if 0 ≤ v.value ∧ v.value < 256 then [OutItem.charOut v.value] else []) } := by
  by_cases hr : 0 ≤ v.value ∧ v.value < 256
  · simp [consoleOutVisit, hfind, Node.give, hgive, Node.take_give_value, hval, hr]
  · simp [consoleOutVisit, hfind, Node.give, hgive, Node.take_give_value, hval, hr]

/-- Concrete neighbor for the C8 witness: a `Given` port with value 65. -/
def mC8 : InstructionNode :=
  { InstructionNode.new ⟨1, 0⟩ [] [] with
      give := DirectionGiving.Given, give_value := some (Number.fromInt 65) }

/-- Concrete world for the C8 witness. -/
def wC8 : TIS := ⟨[(⟨1, 0⟩, .instr mC8)], [], []⟩

/-- Closed witness for C8: visiting the `Given` neighbor emits byte 65 and
empties its `give_value`. -/
theorem C8_console_out_byte_witness :
    consoleOutVisit wC8 ⟨0, 0⟩ Direction.Right =
      { nodes := (wC8.setNode (Position.in_direction ⟨0, 0⟩ Direction.Right)
          (.instr { mC8 with give_value := Option.none })).nodes,
        stdin := wC8.stdin,
        stdout := wC8.stdout
          ++ (if 0 ≤ (Number.fromInt 65).value ∧ (Number.fromInt 65).value < 256
              then [OutItem.charOut (Number.fromInt 65).value] else []) } :=
  C8_console_out_byte wC8 ⟨0, 0⟩ Direction.Right mC8 (Number.fromInt 65) rfl rfl rfl

/-! ### C3 -/

/-- Position of the `Any` reader in the C3 scenario. -/
def pC3 : Position := ⟨0, 0⟩

/-- The reader node A: `mov any, acc`. -/
def nodeA_C3 : InstructionNode :=
  InstructionNode.new pC3 [] [.Move (.Register .Any) .Accumulator]

/-- The producer node B in direction `d` from A, mid-offer on `Any` with
staged value `v` (the state reached after its `mov v, any` committed in a
previous tick's phase B). -/
def nodeB_C3 (d : Direction) (v : Number) : InstructionNode :=
  { InstructionNode.new (pC3.in_direction d) [] [.Move (.Number v) .Any] with
      ptr := 1, give := DirectionGiving.Any, give_value := some v }

/-- Two-node world for C3: reader A at the origin, producer B adjacent in
direction `d`. -/
def wC3 (d : Direction) (v : Number) : TIS :=
  ⟨[(pC3, .instr nodeA_C3), (pC3.in_direction d, .instr (nodeB_C3 d v))], [], []⟩

/-- C3 counterexample: with B offering on `Any` to the right of A and A
reading on `Any`, the transfer completes within the tick (A's accumulator
receives the value and B's port is cleared), yet the reader A's `last`
remains unset — the code never updates `last` on the read side — so the
claim that both `A.last` and `B.last` end up set is false. -/
theorem C3_counterexample :
    (instrAt (TIS.tick [pC3, pC3.in_direction .Right] (wC3 .Right (Number.fromInt 5)))
        pC3).accumulator = Number.fromInt 5
    ∧ (instrAt (TIS.tick [pC3, pC3.in_direction .Right] (wC3 .Right (Number.fromInt 5)))
        (pC3.in_direction .Right)).give = DirectionGiving.None
    ∧ (instrAt (TIS.tick [pC3, pC3.in_direction .Right] (wC3 .Right (Number.fromInt 5)))
        pC3).last = Option.none := by
  decide

/-- Intermediate world of the C3 scenario after phase A: the reader A has
registered its interest, binding B's `giving_to` to `opposite d`. -/
def wC3s (d : Direction) (v : Number) : TIS :=
  ⟨[(pC3, .instr nodeA_C3),
    (pC3.in_direction d, .instr { nodeB_C3 d v with giving_to := some d.opposite })], [], []⟩

/-- Final world of the C3 scenario after the full tick. -/
def wC3f (d : Direction) (v : Number) : TIS :=
  ⟨[(pC3, .instr { nodeA_C3 with accumulator := v, ptr := 1 }),
    (pC3.in_direction d, .instr { nodeB_C3 d v with
        last := some d.opposite
        give := DirectionGiving.None
        give_value := Option.none
        giving_to := Option.none })], [], []⟩

lemma c3_phaseA_reader (d : Direction) (v : Number) :
    tickAt (wC3 d v) pC3 = wC3s d v := by
  cases d <;> rfl

lemma c3_phaseA_producer (d : Direction) (v : Number) :
    tickAt (wC3s d v) (pC3.in_direction d) = wC3s d v := by
  cases d <;> rfl

lemma c3_phaseB_reader (d : Direction) (v : Number) :
    handleGiveAt (wC3s d v) pC3 = wC3s d v := by
  cases d <;> rfl

lemma c3_phaseB_producer (d : Direction) (v : Number) :
    handleGiveAt (wC3s d v) (pC3.in_direction d) = wC3s d v := by
  cases d <;> rfl

lemma c3_phaseC_reader (d : Direction) (v : Number) :
    postHandleAt (wC3s d v) pC3 = wC3s d v := by
  cases d <;> rfl

lemma c3_phaseC_producer (d : Direction) (v : Number) :
    postHandleAt (wC3s d v) (pC3.in_direction d) = wC3f d v := by
  cases d <;> rfl

/-- C3 (amended): for a producer B offering on `Any` in any direction `d`
from the `Any`-reader A, the transfer completes within one global tick:
A's accumulator receives the value and its pointer advances, B's port
returns to `None` with its value slot emptied and `B.last` set to B's
chosen direction (the direction of A as seen from B); the reader-side
`A.last` is not set by the `Any` read. -/
theorem C3_amended (d : Direction) (v : Number) :
    instrAt (TIS.tick [pC3, pC3.in_direction d] (wC3 d v)) pC3
      = { nodeA_C3 with accumulator := v, ptr := 1 }
    ∧ instrAt (TIS.tick [pC3, pC3.in_direction d] (wC3 d v)) (pC3.in_direction d)
      = { nodeB_C3 d v with
            last := some d.opposite
            give := DirectionGiving.None
            give_value := Option.none } := by
  have h0 : TIS.tick [pC3, pC3.in_direction d] (wC3 d v)
      = postHandleAt (postHandleAt
          (handleGiveAt (handleGiveAt
            (tickAt (tickAt (wC3 d v) pC3) (pC3.in_direction d))
            pC3) (pC3.in_direction d))
          pC3) (pC3.in_direction d) := by
    unfold TIS.tick
    rfl
  rw [h0, c3_phaseA_reader, c3_phaseA_producer, c3_phaseB_reader, c3_phaseB_producer,
    c3_phaseC_reader, c3_phaseC_producer]
  cases d <;> exact ⟨rfl, rfl⟩

/-! ### C10: machinery -/

/-- Constructor index of a node (node kinds never change during a tick). -/
def kindIdx : Node → Nat
  | .instr _ => 0
  | .consoleOut _ => 1
  | .consoleIn _ => 2
  | .numberConsoleOut _ => 3
  | .numberConsoleIn _ => 4

/-- What any single node mutation performed during a phase-A step may do
to port-protocol-relevant observables: the `give` tag and the node kind
are unchanged, a recorded receiver is never erased, and the stored
position is unchanged. -/
def NodeStep (m m1 : Node) : Prop :=
  m1.give = m.give ∧ kindIdx m1 = kindIdx m
    ∧ (m.giving_to.isSome = true → m1.giving_to.isSome = true)
    ∧ m1.position = m.position

lemma NodeStep_refl (m : Node) : NodeStep m m := ⟨rfl, rfl, fun h => h, rfl⟩

lemma NodeStep_trans {a b c : Node} (h1 : NodeStep a b) (h2 : NodeStep b c) :
    NodeStep a c :=
  ⟨h2.1.trans h1.1, h2.2.1.trans h1.2.1, fun h => h2.2.2.1 (h1.2.2.1 h),
    h2.2.2.2.trans h1.2.2.2⟩

/-- Pointwise relation between worlds before and after a phase-A step:
the same positions are populated and each populated node evolves by
`NodeStep`. -/
def TickPres (w w1 : TIS) : Prop :=
  ∀ q : Position,
    ((w1.findNode q = Option.none) ↔ (w.findNode q = Option.none))
    ∧ (∀ m m1, w.findNode q = some m → w1.findNode q = some m1 → NodeStep m m1)

lemma TickPres_refl (w : TIS) : TickPres w w := by
  intro q
  refine ⟨Iff.rfl, fun m m1 hm hm1 => ?_⟩
  rw [hm] at hm1
  cases hm1
  exact NodeStep_refl m

lemma TickPres_trans {w w1 w2 : TIS} (h1 : TickPres w w1) (h2 : TickPres w1 w2) :
    TickPres w w2 := by
  intro q
  refine ⟨(h2 q).1.trans (h1 q).1, fun m m2 hm hm2 => ?_⟩
  cases hmid : w1.findNode q with
  | none =>
    rw [(h1 q).1.mp hmid] at hm
    cases hm
  | some m1 =>
    exact NodeStep_trans ((h1 q).2 m m1 hm hmid) ((h2 q).2 m1 m2 hmid hm2)

lemma find?_set_self (l : List (Position × Node)) (p : Position) (n : Node) :
    (l.map (fun q => if q.1 = p then (p, n) else q)).find? (fun q => q.1 = p)
      = (l.find? (fun q => q.1 = p)).map (fun _ => (p, n)) := by
  induction l with
  | nil => rfl
  | cons a l ih =>
    by_cases h : a.1 = p
    · rw [List.map_cons, if_pos h,
        List.find?_cons_of_pos _ (by simp),
        List.find?_cons_of_pos _ (by simp [h])]
      rfl
    · rw [List.map_cons, if_neg h,
        List.find?_cons_of_neg _ (by simp [h]),
        List.find?_cons_of_neg _ (by simp [h])]
      exact ih

lemma find?_set_ne (l : List (Position × Node)) (p : Position) (n : Node)
    (q : Position) (hqp : q ≠ p) :
    (l.map (fun r => if r.1 = p then (p, n) else r)).find? (fun r => r.1 = q)
      = l.find? (fun r => r.1 = q) := by
  induction l with
  | nil => rfl
  | cons a l ih =>
    by_cases h : a.1 = p
    · rw [List.map_cons, if_pos h,
        List.find?_cons_of_neg _ (by simp; exact fun hh => hqp hh.symm),
        List.find?_cons_of_neg _ (by
          simp [h]
          exact fun hh => hqp hh.symm)]
      exact ih
    · rw [List.map_cons, if_neg h]
      by_cases h2 : a.1 = q
      · rw [List.find?_cons_of_pos _ (by simp [h2]),
          List.find?_cons_of_pos _ (by simp [h2])]
      · rw [List.find?_cons_of_neg _ (by simp [h2]),
          List.find?_cons_of_neg _ (by simp [h2])]
        exact ih

lemma findNode_setNode_self (w : TIS) (p : Position) (n : Node) :
    (w.setNode p n).findNode p = (w.findNode p).map (fun _ => n) := by
  cases w with
  | mk l si so =>
    unfold TIS.findNode TIS.setNode
    dsimp only
    rw [find?_set_self]
    cases l.find? (fun q => q.1 = p) <;> rfl

lemma findNode_setNode_ne (w : TIS) (p : Position) (n : Node) (q : Position)
    (hqp : q ≠ p) : (w.setNode p n).findNode q = w.findNode q := by
  cases w with
  | mk l si so =>
    unfold TIS.findNode TIS.setNode
    dsimp only
    rw [find?_set_ne l p n q hqp]

lemma findNode_of_nodes_eq (w1 w2 : TIS) (h : w2.nodes = w1.nodes) (q : Position) :
    w2.findNode q = w1.findNode q := by
  unfold TIS.findNode
  rw [h]

lemma TickPres_setNode (w : TIS) (p : Position) (n : Node)
    (h : ∀ m, w.findNode p = some m → NodeStep m n) :
    TickPres w (w.setNode p n) := by
  intro q
  by_cases hq : q = p
  · subst hq
    rw [findNode_setNode_self]
    cases hw : w.findNode q with
    | none => simp
    | some m =>
      refine ⟨by simp, fun m0 m1 hm0 hm1 => ?_⟩
      cases hm0
      simp at hm1
      cases hm1
      exact h _ hw
  · rw [findNode_setNode_ne w p n q hq]
    refine ⟨Iff.rfl, fun m m1 hm hm1 => ?_⟩
    rw [hm] at hm1
    cases hm1
    exact NodeStep_refl m

lemma TickPres_of_nodes_eq {w w1 : TIS} (w2 : TIS) (h12 : w2.nodes = w1.nodes)
    (h : TickPres w w1) : TickPres w w2 := by
  intro q
  rw [findNode_of_nodes_eq w1 w2 h12 q]
  exact h q

lemma NodeStep_set_giving_to (m : Node) (d : Direction) :
    NodeStep m (m.set_giving_to d) := by
  cases m <;>
    simp [NodeStep, Node.set_giving_to, Node.give, kindIdx, Node.giving_to, Node.position]

lemma take_value_fields (n : ConsoleInNode) (s : List (List Char)) :
    (n.take_value s).2.1.give = n.give ∧ (n.take_value s).2.1.giving_to = n.giving_to
      ∧ (n.take_value s).2.1.position = n.position := by
  unfold ConsoleInNode.take_value
  cases hb : n.text_buffer with
  | some b => cases b <;> simp [hb]
  | none =>
    cases s with
    | nil => simp [hb]
    | cons line rest => cases line <;> simp [hb]

lemma NodeStep_take (m : Node) (s : List (List Char)) (o : List OutItem) :
    NodeStep m (m.take_give_value s o).2.1 := by
  cases m with
  | instr n =>
    simp [Node.take_give_value, NodeStep, Node.give, kindIdx, Node.giving_to, Node.position]
  | consoleOut n => exact NodeStep_refl _
  | numberConsoleOut n => exact NodeStep_refl _
  | consoleIn n =>
    have h := take_value_fields n s
    rcases ht : n.take_value s with ⟨v, n1, s1⟩
    rw [ht] at h
    simp at h
    simp [Node.take_give_value, ht, NodeStep, Node.give, kindIdx, Node.giving_to,
      Node.position, h.1, h.2.1, h.2.2]
  | numberConsoleIn n =>
    rcases ht : NumberConsoleInNode.read_loop s o with ⟨v, s1, o1⟩
    simp [Node.take_give_value, ht, NodeStep, Node.give, kindIdx, Node.giving_to,
      Node.position]

lemma getValueDir_pres (w : TIS) (p : Position) (d : Direction) :
    TickPres w (getValueDir w p d).2 := by
  unfold getValueDir
  dsimp only
  cases hf : w.findNode (p.in_direction d) with
  | none => exact TickPres_refl w
  | some node =>
    dsimp only
    cases hg : node.give with
    | None => exact TickPres_refl w
    | Any =>
      dsimp only
      refine TickPres_setNode w _ _ (fun m hm => ?_)
      rw [hf] at hm
      cases hm
      exact NodeStep_set_giving_to _ _
    | Direction gd =>
      dsimp only
      by_cases hd : gd = d.opposite
      · rw [if_pos hd]
        dsimp only
        refine TickPres_setNode w _ _ (fun m hm => ?_)
        rw [hf] at hm
        cases hm
        exact NodeStep_set_giving_to _ _
      · rw [if_neg hd]
        exact TickPres_refl w
    | Given =>
      rcases ht : node.take_give_value w.stdin w.stdout with ⟨v, node1, s1, o1⟩
      dsimp only
      refine TickPres_of_nodes_eq _ rfl
        (TickPres_setNode w _ _ (fun m hm => ?_))
      rw [hf] at hm
      cases hm
      have hns := NodeStep_take node w.stdin w.stdout
      rw [ht] at hns
      exact hns

lemma getValueAnyGo_pres (w : TIS) (p : Position) :
    ∀ dirs : List Direction, TickPres w (getValueAnyGo w p dirs).2 := by
  intro dirs
  induction dirs with
  | nil => exact TickPres_refl w
  | cons d rest ih =>
    unfold getValueAnyGo
    dsimp only
    cases hf : w.findNode (p.in_direction d) with
    | none => exact ih
    | some node =>
      dsimp only
      cases hg : node.give with
      | None => exact ih
      | Any =>
        dsimp only
        refine TickPres_setNode w _ _ (fun m hm => ?_)
        rw [hf] at hm
        cases hm
        exact NodeStep_set_giving_to _ _
      | Direction gd =>
        dsimp only
        by_cases hd : gd = d.opposite
        · rw [if_pos hd]
          dsimp only
          refine TickPres_setNode w _ _ (fun m hm => ?_)
          rw [hf] at hm
          cases hm
          exact NodeStep_set_giving_to _ _
        · rw [if_neg hd]
          exact ih
      | Given =>
        rcases ht : node.take_give_value w.stdin w.stdout with ⟨v, node1, s1, o1⟩
        dsimp only
        refine TickPres_of_nodes_eq _ rfl
          (TickPres_setNode w _ _ (fun m hm => ?_))
        rw [hf] at hm
        cases hm
        have hns := NodeStep_take node w.stdin w.stdout
        rw [ht] at hns
        exact hns

lemma get_value_pres (w : TIS) (n : InstructionNode) (r : Register) :
    TickPres w (n.get_value w r).2 := by
  cases r with
  | Accumulator => exact TickPres_refl w
  | Nil => exact TickPres_refl w
  | Direction d => exact getValueDir_pres w n.position d
  | Any => exact getValueAnyGo_pres w n.position Direction.all
  | Last =>
    unfold InstructionNode.get_value
    cases n.last with
    | none => exact TickPres_refl w
    | some d => exact getValueDir_pres w n.position d

lemma evalSource_pres (w : TIS) (n : InstructionNode) (src : RegisterOrNumber) :
    TickPres w (n.evalSource w src).2 := by
  cases src with
  | Register r => exact get_value_pres w n r
  | Number v => exact TickPres_refl w

/-- Stored positions agree with grid keys (true of every world built by
`TIS::add_node`, whose map key is the node's position). -/
def PosConsistent (w : TIS) : Prop :=
  ∀ q m, w.findNode q = some m → m.position = q

lemma PosConsistent_of_TickPres {w w1 : TIS} (h : TickPres w w1)
    (hpc : PosConsistent w) : PosConsistent w1 := by
  intro q m1 h1
  cases ho : w.findNode q with
  | none =>
    rw [(h q).1.mpr ho] at h1
    cases h1
  | some m =>
    have hs := (h q).2 m m1 ho h1
    rw [hs.2.2.2]
    exact hpc q m ho

lemma in_direction_ne (p : Position) (d : Direction) : p.in_direction d ≠ p := by
  cases p with
  | mk x y =>
    cases d <;> simp [Position.in_direction]

lemma getValueDir_findNode_ne (w : TIS) (p : Position) (d : Direction)
    (q : Position) (hq : q ≠ p.in_direction d) :
    (getValueDir w p d).2.findNode q = w.findNode q := by
  unfold getValueDir
  dsimp only
  cases hf : w.findNode (p.in_direction d) with
  | none => rfl
  | some node =>
    dsimp only
    cases hg : node.give with
    | None => rfl
    | Any => exact findNode_setNode_ne w _ _ q hq
    | Direction gd =>
      dsimp only
      by_cases hd : gd = d.opposite
      · rw [if_pos hd]
        exact findNode_setNode_ne w _ _ q hq
      · rw [if_neg hd]
    | Given =>
      rcases ht : node.take_give_value w.stdin w.stdout with ⟨v, node1, s1, o1⟩
      dsimp only
      exact findNode_setNode_ne w _ node1 q hq

lemma getValueAnyGo_findNode_ne (w : TIS) (p : Position) :
    ∀ (dirs : List Direction) (q : Position), (∀ d ∈ dirs, q ≠ p.in_direction d) →
    (getValueAnyGo w p dirs).2.findNode q = w.findNode q := by
  intro dirs
  induction dirs with
  | nil => intro q _; rfl
  | cons d rest ih =>
    intro q hq
    have hqd : q ≠ p.in_direction d := hq d (by simp)
    have hqr : ∀ x ∈ rest, q ≠ p.in_direction x := fun x hx => hq x (by simp [hx])
    unfold getValueAnyGo
    dsimp only
    cases hf : w.findNode (p.in_direction d) with
    | none => exact ih q hqr
    | some node =>
      dsimp only
      cases hg : node.give with
      | None => exact ih q hqr
      | Any => exact findNode_setNode_ne w _ _ q hqd
      | Direction gd =>
        dsimp only
        by_cases hd : gd = d.opposite
        · rw [if_pos hd]
          exact findNode_setNode_ne w _ _ q hqd
        · rw [if_neg hd]
          exact ih q hqr
      | Given =>
        rcases ht : node.take_give_value w.stdin w.stdout with ⟨v, node1, s1, o1⟩
        dsimp only
        exact findNode_setNode_ne w _ node1 q hqd

lemma get_value_findNode_self (w : TIS) (n : InstructionNode) (r : Register) :
    (n.get_value w r).2.findNode n.position = w.findNode n.position := by
  cases r with
  | Accumulator => rfl
  | Nil => rfl
  | Direction d =>
    exact getValueDir_findNode_ne w n.position d n.position (in_direction_ne _ _).symm
  | Any =>
    exact getValueAnyGo_findNode_ne w n.position Direction.all n.position
      (fun d _ => (in_direction_ne _ _).symm)
  | Last =>
    unfold InstructionNode.get_value
    cases n.last with
    | none => rfl
    | some d =>
      exact getValueDir_findNode_ne w n.position d n.position (in_direction_ne _ _).symm

lemma evalSource_findNode_self (w : TIS) (n : InstructionNode) (src : RegisterOrNumber) :
    (n.evalSource w src).2.findNode n.position = w.findNode n.position := by
  cases src with
  | Register r => exact get_value_findNode_self w n r
  | Number v => rfl

lemma set_value_fields (n : InstructionNode) (r : Register) (v : Number) :
    (n.set_value r v).1.give = n.give ∧ (n.set_value r v).1.giving_to = n.giving_to
      ∧ (n.set_value r v).1.position = n.position := by
  cases r <;> simp [InstructionNode.set_value]
  split <;> simp

lemma TickPres_instr_writeback (w w1 : TIS) (n n3 : InstructionNode)
    (hf : w.findNode n.position = some (.instr n))
    (hp : TickPres w w1)
    (hself : w1.findNode n.position = w.findNode n.position)
    (hg : n3.give = n.give) (hgt : n3.giving_to = n.giving_to)
    (hpos : n3.position = n.position) :
    TickPres w (w1.setNode n.position (.instr n3)) := by
  refine TickPres_trans hp (TickPres_setNode w1 _ _ (fun m hm => ?_))
  rw [hself, hf] at hm
  cases hm
  exact ⟨hg, rfl, by simp [Node.giving_to, hgt], hpos⟩

lemma instrTick_pres (w : TIS) (n : InstructionNode)
    (hf : w.findNode n.position = some (.instr n)) :
    TickPres w (InstructionNode.tick w n) := by
  unfold InstructionNode.tick
  by_cases he : n.instructions = []
  · rw [if_pos he]
    exact TickPres_refl w
  rw [if_neg he]
  by_cases hg2 : n.give ≠ DirectionGiving.None
  · rw [if_pos hg2]
    exact TickPres_refl w
  rw [if_neg hg2]
  dsimp only
  cases hi : n.instructions[n.decode_ptr]? with
  | none => exact TickPres_refl w
  | some instruction =>
    dsimp only
    cases instruction with
    | Noop =>
      exact TickPres_instr_writeback w w n _ hf (TickPres_refl w) rfl rfl rfl rfl
    | Move src dst =>
      dsimp only
      rcases hs : InstructionNode.evalSource w { n with ptr := n.decode_ptr } src with ⟨o, w1⟩
      have hpres : TickPres w w1 := by
        have h0 := evalSource_pres w { n with ptr := n.decode_ptr } src
        rw [hs] at h0
        exact h0
      have hself : w1.findNode n.position = w.findNode n.position := by
        have h0 := evalSource_findNode_self w { n with ptr := n.decode_ptr } src
        rw [hs] at h0
        exact h0
      cases o with
      | none =>
        exact TickPres_instr_writeback w w1 n _ hf hpres hself rfl rfl rfl
      | some v =>
        dsimp only
        rcases hsv : InstructionNode.set_value { n with ptr := n.decode_ptr } dst v with ⟨n2, skip⟩
        have hfields := set_value_fields { n with ptr := n.decode_ptr } dst v
        rw [hsv] at hfields
        dsimp only
        cases skip with
        | true =>
          exact TickPres_instr_writeback w w1 n n2 hf hpres hself
            hfields.1 hfields.2.1 hfields.2.2
        | false =>
          exact TickPres_instr_writeback w w1 n _ hf hpres hself
            hfields.1 hfields.2.1 hfields.2.2
    | Swap =>
      exact TickPres_instr_writeback w w n _ hf (TickPres_refl w) rfl rfl rfl rfl
    | Save =>
      exact TickPres_instr_writeback w w n _ hf (TickPres_refl w) rfl rfl rfl rfl
    | Add src =>
      dsimp only
      rcases hs : InstructionNode.evalSource w { n with ptr := n.decode_ptr } src with ⟨o, w1⟩
      have hpres : TickPres w w1 := by
        have h0 := evalSource_pres w { n with ptr := n.decode_ptr } src
        rw [hs] at h0
        exact h0
      have hself : w1.findNode n.position = w.findNode n.position := by
        have h0 := evalSource_findNode_self w { n with ptr := n.decode_ptr } src
        rw [hs] at h0
        exact h0
      cases o with
      | none => exact TickPres_instr_writeback w w1 n _ hf hpres hself rfl rfl rfl
      | some v => exact TickPres_instr_writeback w w1 n _ hf hpres hself rfl rfl rfl
    | Subtract src =>
      dsimp only
      rcases hs : InstructionNode.evalSource w { n with ptr := n.decode_ptr } src with ⟨o, w1⟩
      have hpres : TickPres w w1 := by
        have h0 := evalSource_pres w { n with ptr := n.decode_ptr } src
        rw [hs] at h0
        exact h0
      have hself : w1.findNode n.position = w.findNode n.position := by
        have h0 := evalSource_findNode_self w { n with ptr := n.decode_ptr } src
        rw [hs] at h0
        exact h0
      cases o with
      | none => exact TickPres_instr_writeback w w1 n _ hf hpres hself rfl rfl rfl
      | some v => exact TickPres_instr_writeback w w1 n _ hf hpres hself rfl rfl rfl
    | Negate =>
      exact TickPres_instr_writeback w w n _ hf (TickPres_refl w) rfl rfl rfl rfl
    | Jump label =>
      dsimp only
      cases labelsLookup n.labels label with
      | none => exact TickPres_refl w
      | some t =>
        exact TickPres_instr_writeback w w n _ hf (TickPres_refl w) rfl rfl rfl rfl
    | JumpEqualZero label =>
      dsimp only
      by_cases hz : ({ n with ptr := n.decode_ptr } : InstructionNode).accumulator.is_zero
      · rw [if_pos hz]
        cases labelsLookup n.labels label with
        | none => exact TickPres_refl w
        | some t =>
          exact TickPres_instr_writeback w w n _ hf (TickPres_refl w) rfl rfl rfl rfl
      · rw [if_neg hz]
        exact TickPres_instr_writeback w w n _ hf (TickPres_refl w) rfl rfl rfl rfl
    | JumpNotZero label =>
      dsimp only
      by_cases hz : ({ n with ptr := n.decode_ptr } : InstructionNode).accumulator.is_zero
      · rw [if_pos hz]
        exact TickPres_instr_writeback w w n _ hf (TickPres_refl w) rfl rfl rfl rfl
      · rw [if_neg hz]
        cases labelsLookup n.labels label with
        | none => exact TickPres_refl w
        | some t =>
          exact TickPres_instr_writeback w w n _ hf (TickPres_refl w) rfl rfl rfl rfl
    | JumpGreaterThanZero label =>
      dsimp only
      by_cases hz : ({ n with ptr := n.decode_ptr } : InstructionNode).accumulator.value > 0
      · rw [if_pos hz]
        cases labelsLookup n.labels label with
        | none => exact TickPres_refl w
        | some t =>
          exact TickPres_instr_writeback w w n _ hf (TickPres_refl w) rfl rfl rfl rfl
      · rw [if_neg hz]
        exact TickPres_instr_writeback w w n _ hf (TickPres_refl w) rfl rfl rfl rfl
    | JumpLessThanZero label =>
      dsimp only
      by_cases hz : ({ n with ptr := n.decode_ptr } : InstructionNode).accumulator.value < 0
      · rw [if_pos hz]
        cases labelsLookup n.labels label with
        | none => exact TickPres_refl w
        | some t =>
          exact TickPres_instr_writeback w w n _ hf (TickPres_refl w) rfl rfl rfl rfl
      · rw [if_neg hz]
        exact TickPres_instr_writeback w w n _ hf (TickPres_refl w) rfl rfl rfl rfl
    | JumpRelative src =>
      dsimp only
      rcases hs : InstructionNode.evalSource w { n with ptr := n.decode_ptr } src with ⟨o, w1⟩
      have hpres : TickPres w w1 := by
        have h0 := evalSource_pres w { n with ptr := n.decode_ptr } src
        rw [hs] at h0
        exact h0
      have hself : w1.findNode n.position = w.findNode n.position := by
        have h0 := evalSource_findNode_self w { n with ptr := n.decode_ptr } src
        rw [hs] at h0
        exact h0
      cases o with
      | none => exact TickPres_instr_writeback w w1 n _ hf hpres hself rfl rfl rfl
      | some v => exact TickPres_instr_writeback w w1 n _ hf hpres hself rfl rfl rfl

lemma consoleOutVisit_pres (w : TIS) (p : Position) (d : Direction) :
    TickPres w (consoleOutVisit w p d) := by
  unfold consoleOutVisit
  dsimp only
  cases hf : w.findNode (p.in_direction d) with
  | none => exact TickPres_refl w
  | some node =>
    dsimp only
    cases hg : node.give with
    | None => exact TickPres_refl w
    | Any =>
      dsimp only
      refine TickPres_setNode w _ _ (fun m hm => ?_)
      rw [hf] at hm
      cases hm
      exact NodeStep_set_giving_to _ _
    | Direction gd =>
      dsimp only
      by_cases hd : gd = d.opposite
      · rw [if_pos hd]
        refine TickPres_setNode w _ _ (fun m hm => ?_)
        rw [hf] at hm
        cases hm
        exact NodeStep_set_giving_to _ _
      · rw [if_neg hd]
        exact TickPres_refl w
    | Given =>
      rcases ht : node.take_give_value w.stdin w.stdout with ⟨v, node1, s1, o1⟩
      dsimp only
      refine TickPres_of_nodes_eq _ rfl
        (TickPres_setNode w _ _ (fun m hm => ?_))
      rw [hf] at hm
      cases hm
      have hns := NodeStep_take node w.stdin w.stdout
      rw [ht] at hns
      exact hns

lemma numberConsoleOutVisit_pres (w : TIS) (p : Position) (d : Direction) :
    TickPres w (numberConsoleOutVisit w p d) := by
  unfold numberConsoleOutVisit
  dsimp only
  cases hf : w.findNode (p.in_direction d) with
  | none => exact TickPres_refl w
  | some node =>
    dsimp only
    cases hg : node.give with
    | None => exact TickPres_refl w
    | Any =>
      dsimp only
      refine TickPres_setNode w _ _ (fun m hm => ?_)
      rw [hf] at hm
      cases hm
      exact NodeStep_set_giving_to _ _
    | Direction gd =>
      dsimp only
      by_cases hd : gd = d.opposite
      · rw [if_pos hd]
        refine TickPres_setNode w _ _ (fun m hm => ?_)
        rw [hf] at hm
        cases hm
        exact NodeStep_set_giving_to _ _
      · rw [if_neg hd]
        exact TickPres_refl w
    | Given =>
      rcases ht : node.take_give_value w.stdin w.stdout with ⟨v, node1, s1, o1⟩
      dsimp only
      refine TickPres_of_nodes_eq _ rfl
        (TickPres_setNode w _ _ (fun m hm => ?_))
      rw [hf] at hm
      cases hm
      have hns := NodeStep_take node w.stdin w.stdout
      rw [ht] at hns
      exact hns

lemma TickPres_foldl {α : Type} (f : TIS → α → TIS)
    (hstep : ∀ w x, TickPres w (f w x)) :
    ∀ (l : List α) (w : TIS), TickPres w (l.foldl f w) := by
  intro l
  induction l with
  | nil => intro w; exact TickPres_refl w
  | cons a l ih =>
    intro w
    exact TickPres_trans (hstep w a) (ih (f w a))

lemma tickAt_pres (w : TIS) (p : Position) (hpc : PosConsistent w) :
    TickPres w (tickAt w p) := by
  unfold tickAt
  cases hf : w.findNode p with
  | none => exact TickPres_refl w
  | some node =>
    cases node with
    | instr n =>
      have hpos : n.position = p := hpc p _ hf
      refine instrTick_pres w n ?_
      rw [hpos]
      exact hf
    | consoleOut n =>
      exact TickPres_foldl _ (fun w d => consoleOutVisit_pres w n.position d) Direction.all w
    | consoleIn n => exact TickPres_refl w
    | numberConsoleOut n =>
      exact TickPres_foldl _ (fun w d => numberConsoleOutVisit_pres w n.position d)
        Direction.all w
    | numberConsoleIn n => exact TickPres_refl w

/-- No node reachable by grid lookup has its port in the `Given` state. -/
def noGiven (w : TIS) : Prop :=
  ∀ q m, w.findNode q = some m → m.give ≠ DirectionGiving.Given

lemma noGiven_of_TickPres {w w1 : TIS} (h : TickPres w w1) (hng : noGiven w) :
    noGiven w1 := by
  intro q m1 h1
  cases ho : w.findNode q with
  | none =>
    rw [(h q).1.mpr ho] at h1
    cases h1
  | some m =>
    rw [((h q).2 m m1 ho h1).1]
    exact hng q m ho

lemma PosConsistent_setNode (w : TIS) (p : Position) (n : Node)
    (hpc : PosConsistent w) (hn : n.position = p) : PosConsistent (w.setNode p n) := by
  intro q m hq
  by_cases h : q = p
  · subst h
    rw [findNode_setNode_self] at hq
    cases ho : w.findNode q with
    | none =>
      rw [ho] at hq
      cases hq
    | some m0 =>
      rw [ho] at hq
      simp at hq
      rw [← hq]
      exact hn
  · rw [findNode_setNode_ne _ _ _ _ h] at hq
    exact hpc q m hq

lemma noGiven_setNode (w : TIS) (p : Position) (n : Node)
    (hng : noGiven w) (hn : n.give ≠ DirectionGiving.Given) : noGiven (w.setNode p n) := by
  intro q m hq
  by_cases h : q = p
  · subst h
    rw [findNode_setNode_self] at hq
    cases ho : w.findNode q with
    | none =>
      rw [ho] at hq
      cases hq
    | some m0 =>
      rw [ho] at hq
      simp at hq
      rw [← hq]
      exact hn
  · rw [findNode_setNode_ne _ _ _ _ h] at hq
    exact hng q m hq

lemma handle_give_give_ne (n : InstructionNode) (h : n.give ≠ DirectionGiving.Given) :
    n.handle_give.give ≠ DirectionGiving.Given := by
  unfold InstructionNode.handle_give
  split
  · split
    · split
      · simp
      · simp
      · split
        · simp
        · exact h
      · exact h
    · exact h
  · exact h

lemma handle_give_position (n : InstructionNode) :
    n.handle_give.position = n.position := by
  unfold InstructionNode.handle_give
  split
  · split
    · split
      · rfl
      · rfl
      · split
        · rfl
        · rfl
      · rfl
    · rfl
  · rfl

lemma handleGiveAt_pres (w : TIS) (p : Position)
    (hpc : PosConsistent w) (hng : noGiven w) :
    PosConsistent (handleGiveAt w p) ∧ noGiven (handleGiveAt w p) := by
  unfold handleGiveAt
  cases hf : w.findNode p with
  | none => exact ⟨hpc, hng⟩
  | some node =>
    cases node with
    | instr n =>
      dsimp only
      constructor
      · refine PosConsistent_setNode w p _ hpc ?_
        have := hpc p _ hf
        simp [Node.position] at this ⊢
        rw [handle_give_position]
        exact this
      · refine noGiven_setNode w p _ hng ?_
        have := hng p _ hf
        simp [Node.give] at this ⊢
        exact handle_give_give_ne n this
    | consoleOut n => exact ⟨hpc, hng⟩
    | consoleIn n => exact ⟨hpc, hng⟩
    | numberConsoleOut n => exact ⟨hpc, hng⟩
    | numberConsoleIn n => exact ⟨hpc, hng⟩

lemma noGiven_except {w1 w2 : TIS} (p : Position) (hpres : TickPres w1 w2)
    (hng : ∀ q mq, q ≠ p → w1.findNode q = some mq → mq.give ≠ DirectionGiving.Given) :
    ∀ q mq, q ≠ p → w2.findNode q = some mq → mq.give ≠ DirectionGiving.Given := by
  intro q mq hqp hq
  cases ho : w1.findNode q with
  | none =>
    rw [(hpres q).1.mpr ho] at hq
    cases hq
  | some m0 =>
    rw [((hpres q).2 m0 mq ho hq).1]
    exact hng q m0 hqp ho

lemma post_post_not_given (node2 : Node)
    (hk : kindIdx node2 = 0 ∨ kindIdx node2 = 2 ∨ kindIdx node2 = 4)
    (hgt : node2.giving_to.isSome = true) :
    node2.post_post_handle_give.give ≠ DirectionGiving.Given := by
  cases node2 with
  | instr m =>
    have hm : m.giving_to.isSome = true := hgt
    simp [Node.post_post_handle_give, InstructionNode.post_post_handle_give, hm, Node.give]
  | consoleOut m => simp [kindIdx] at hk
  | consoleIn m =>
    simp [Node.post_post_handle_give, ConsoleInNode.post_post_handle_give, Node.give]
  | numberConsoleOut m => simp [kindIdx] at hk
  | numberConsoleIn m =>
    simp [Node.post_post_handle_give, NumberConsoleInNode.post_post_handle_give, Node.give]

lemma post_post_position (node2 : Node) :
    node2.post_post_handle_give.position = node2.position := by
  cases node2 with
  | instr m =>
    simp only [Node.post_post_handle_give, InstructionNode.post_post_handle_give, Node.position]
    split <;> rfl
  | consoleOut m => rfl
  | consoleIn m => rfl
  | numberConsoleOut m => rfl
  | numberConsoleIn m => rfl

lemma postHandle_tail (u : TIS) (p pos : Position) (node1 : Node)
    (hpcu : PosConsistent u)
    (hfu : u.findNode p = some node1)
    (hngu : ∀ q mq, q ≠ p → u.findNode q = some mq → mq.give ≠ DirectionGiving.Given)
    (hgt1 : node1.giving_to.isSome = true)
    (hk : kindIdx node1 = 0 ∨ kindIdx node1 = 2 ∨ kindIdx node1 = 4) :
    PosConsistent (match (tickAt u pos).findNode p with
        | some node2 => (tickAt u pos).setNode p node2.post_post_handle_give
        | Option.none => tickAt u pos)
      ∧ noGiven (match (tickAt u pos).findNode p with
        | some node2 => (tickAt u pos).setNode p node2.post_post_handle_give
        | Option.none => tickAt u pos) := by
  have hpres := tickAt_pres u pos hpcu
  have hpcu2 := PosConsistent_of_TickPres hpres hpcu
  cases hf2 : (tickAt u pos).findNode p with
  | none =>
    exfalso
    have h0 := (hpres p).1.mp hf2
    rw [hfu] at h0
    cases h0
  | some node2 =>
    have hstep := (hpres p).2 node1 node2 hfu hf2
    constructor
    · refine PosConsistent_setNode _ p _ hpcu2 ?_
      rw [post_post_position, hstep.2.2.2]
      exact hpcu p node1 hfu
    · intro q mq hq
      by_cases hqp : q = p
      · subst hqp
        rw [findNode_setNode_self, hf2] at hq
        simp at hq
        rw [← hq]
        refine post_post_not_given node2 ?_ (hstep.2.2.1 hgt1)
        rw [hstep.2.1]
        exact hk
      · rw [findNode_setNode_ne _ _ _ _ hqp] at hq
        exact noGiven_except p hpres hngu q mq hqp hq

lemma postHandleAt_pres (w : TIS) (p : Position)
    (hpc : PosConsistent w) (hng : noGiven w) :
    PosConsistent (postHandleAt w p) ∧ noGiven (postHandleAt w p) := by
  unfold postHandleAt
  cases hf : w.findNode p with
  | none => exact ⟨hpc, hng⟩
  | some node =>
    dsimp only
    have hngu : ∀ (node1 : Node) (q : Position) (mq : Node), q ≠ p →
        (w.setNode p node1).findNode q = some mq → mq.give ≠ DirectionGiving.Given := by
      intro node1 q mq hqp hqf
      rw [findNode_setNode_ne _ _ _ _ hqp] at hqf
      exact hng q mq hqf
    cases node with
    | instr m =>
      cases hgt : m.giving_to with
      | none =>
        have hph : Node.post_handle_give (.instr m) = (.instr m, Option.none) := by
          simp [Node.post_handle_give, InstructionNode.post_handle_give, hgt]
        rw [hph]
        dsimp only
        exact ⟨PosConsistent_setNode w p _ hpc (hpc p _ hf),
          noGiven_setNode w p _ hng (hng p _ hf)⟩
      | some g =>
        have hph : Node.post_handle_give (.instr m)
            = (.instr { (if m.give = DirectionGiving.Any then { m with last := some g } else m)
                  with give := DirectionGiving.Given },
                some (m.position.in_direction g)) := by
          simp only [Node.post_handle_give, InstructionNode.post_handle_give, hgt]
        rw [hph]
        dsimp only
        have hposm : m.position = p := hpc p _ hf
        set node1 : Node := Node.instr
          { (if m.give = DirectionGiving.Any then { m with last := some g } else m)
            with give := DirectionGiving.Given } with hnode1
        have hpos1 : node1.position = p := by
          by_cases hA : m.give = DirectionGiving.Any <;>
            simp [hnode1, Node.position, hA, hposm]
        refine postHandle_tail (w.setNode p node1) p (m.position.in_direction g) node1
          (PosConsistent_setNode w p node1 hpc hpos1) ?_ (hngu node1) ?_ ?_
        · rw [findNode_setNode_self, hf]
          rfl
        · by_cases hA : m.give = DirectionGiving.Any <;>
            simp [hnode1, Node.giving_to, hA, hgt]
        · simp [hnode1, kindIdx]
    | consoleOut m =>
      have hph : Node.post_handle_give (.consoleOut m) = (.consoleOut m, Option.none) := rfl
      rw [hph]
      dsimp only
      exact ⟨PosConsistent_setNode w p _ hpc (hpc p _ hf),
        noGiven_setNode w p _ hng (hng p _ hf)⟩
    | numberConsoleOut m =>
      have hph : Node.post_handle_give (.numberConsoleOut m)
          = (.numberConsoleOut m, Option.none) := rfl
      rw [hph]
      dsimp only
      exact ⟨PosConsistent_setNode w p _ hpc (hpc p _ hf),
        noGiven_setNode w p _ hng (hng p _ hf)⟩
    | consoleIn m =>
      cases hgt : m.giving_to with
      | none =>
        have hph : Node.post_handle_give (.consoleIn m) = (.consoleIn m, Option.none) := by
          simp [Node.post_handle_give, ConsoleInNode.post_handle_give, hgt]
        rw [hph]
        dsimp only
        exact ⟨PosConsistent_setNode w p _ hpc (hpc p _ hf),
          noGiven_setNode w p _ hng (hng p _ hf)⟩
      | some g =>
        have hph : Node.post_handle_give (.consoleIn m)
            = (.consoleIn { m with give := DirectionGiving.Given },
                some (m.position.in_direction g)) := by
          simp only [Node.post_handle_give, ConsoleInNode.post_handle_give, hgt]
        rw [hph]
        dsimp only
        have hposm : m.position = p := hpc p _ hf
        set node1 : Node := Node.consoleIn { m with give := DirectionGiving.Given } with hnode1
        refine postHandle_tail (w.setNode p node1) p (m.position.in_direction g) node1
          (PosConsistent_setNode w p node1 hpc (by simp [hnode1, Node.position, hposm])) ?_
          (hngu node1) (by simp [hnode1, Node.giving_to, hgt]) (by simp [hnode1, kindIdx])
        rw [findNode_setNode_self, hf]
        rfl
    | numberConsoleIn m =>
      cases hgt : m.giving_to with
      | none =>
        have hph : Node.post_handle_give (.numberConsoleIn m)
            = (.numberConsoleIn m, Option.none) := by
          simp [Node.post_handle_give, NumberConsoleInNode.post_handle_give, hgt]
        rw [hph]
        dsimp only
        exact ⟨PosConsistent_setNode w p _ hpc (hpc p _ hf),
          noGiven_setNode w p _ hng (hng p _ hf)⟩
      | some g =>
        have hph : Node.post_handle_give (.numberConsoleIn m)
            = (.numberConsoleIn { m with give := DirectionGiving.Given },
                some (m.position.in_direction g)) := by
          simp only [Node.post_handle_give, NumberConsoleInNode.post_handle_give, hgt]
        rw [hph]
        dsimp only
        have hposm : m.position = p := hpc p _ hf
        set node1 : Node := Node.numberConsoleIn { m with give := DirectionGiving.Given }
          with hnode1
        refine postHandle_tail (w.setNode p node1) p (m.position.in_direction g) node1
          (PosConsistent_setNode w p node1 hpc (by simp [hnode1, Node.position, hposm])) ?_
          (hngu node1) (by simp [hnode1, Node.giving_to, hgt]) (by simp [hnode1, kindIdx])
        rw [findNode_setNode_self, hf]
        rfl

lemma tickAt_good (w : TIS) (p : Position) (hpc : PosConsistent w) (hng : noGiven w) :
    PosConsistent (tickAt w p) ∧ noGiven (tickAt w p) :=
  ⟨PosConsistent_of_TickPres (tickAt_pres w p hpc) hpc,
   noGiven_of_TickPres (tickAt_pres w p hpc) hng⟩

lemma foldl_pres {α : Type} (f : TIS → α → TIS)
    (hstep : ∀ w x, PosConsistent w → noGiven w →
      PosConsistent (f w x) ∧ noGiven (f w x)) :
    ∀ (l : List α) (w : TIS), PosConsistent w → noGiven w →
      PosConsistent (l.foldl f w) ∧ noGiven (l.foldl f w) := by
  intro l
  induction l with
  | nil => intro w hpc hng; exact ⟨hpc, hng⟩
  | cons a l ih =>
    intro w hpc hng
    have h1 := hstep w a hpc hng
    exact ih (f w a) h1.1 h1.2

lemma findNode_add_node (w : TIS) (nd : Node) (q : Position) :
    (TIS.add_node w nd).findNode q =
      match w.findNode q with
      | some m => some m
      | Option.none => if nd.position = q then some nd else Option.none := by
  cases w with
  | mk l si so =>
    unfold TIS.add_node TIS.findNode
    dsimp only
    induction l with
    | nil =>
      by_cases h : nd.position = q
      · simp [List.find?, h]
      · simp [List.find?, h]
    | cons a l ih =>
      by_cases h : a.1 = q
      · rw [List.cons_append,
          List.find?_cons_of_pos _ (by simp [h]),
          List.find?_cons_of_pos _ (by simp [h])]
        rfl
      · rw [List.cons_append,
          List.find?_cons_of_neg _ (by simp [h]),
          List.find?_cons_of_neg _ (by simp [h])]
        exact ih

lemma add_node_pres (w : TIS) (nd : Node)
    (hpc : PosConsistent w) (hng : noGiven w) (hg : nd.give ≠ DirectionGiving.Given) :
    PosConsistent (TIS.add_node w nd) ∧ noGiven (TIS.add_node w nd) := by
  constructor <;> intro q m hq <;> rw [findNode_add_node] at hq
  · cases ho : w.findNode q with
    | some m0 =>
      rw [ho] at hq
      cases hq
      exact hpc q m ho
    | none =>
      rw [ho] at hq
      dsimp only at hq
      by_cases h : nd.position = q
      · rw [if_pos h] at hq
        cases hq
        exact h
      · rw [if_neg h] at hq
        cases hq
  · cases ho : w.findNode q with
    | some m0 =>
      rw [ho] at hq
      cases hq
      exact hng q m ho
    | none =>
      rw [ho] at hq
      dsimp only at hq
      by_cases h : nd.position = q
      · rw [if_pos h] at hq
        cases hq
        exact hg
      · rw [if_neg h] at hq
        cases hq

/-! ### C10 -/

/-- C10: in any world whose stored node positions match their grid keys
and in which no port is `Given` — both hold in every reachable state: the
initial nodes start with `give ∈ {None, Any}` and `add_node` keys nodes by
their position — a full three-phase tick ends with no port `Given` and
preserves both properties; moreover a single phase-C iteration
(`postHandleAt`, which is what flips a port to `Given` and clears it
after re-ticking the partner) already restores the no-`Given` property
before the scheduler moves on. -/
theorem C10_no_given_after_tick :
    (∀ (order : List Position) (w : TIS), PosConsistent w → noGiven w →
        noGiven (TIS.tick order w) ∧ PosConsistent (TIS.tick order w))
    ∧ (∀ (w : TIS) (p : Position), PosConsistent w → noGiven w →
        noGiven (postHandleAt w p))
    ∧ (∀ (w : TIS) (nd : Node), PosConsistent w → noGiven w →
        nd.give ≠ DirectionGiving.Given →
        noGiven (TIS.add_node w nd) ∧ PosConsistent (TIS.add_node w nd))
    ∧ (∀ (p : Position) (labels : List (String × Nat)) (instrs : List Instruction),
        (Node.instr (InstructionNode.new p labels instrs)).give ≠ DirectionGiving.Given
        ∧ (Node.consoleIn (ConsoleInNode.new p)).give ≠ DirectionGiving.Given
        ∧ (Node.numberConsoleIn (NumberConsoleInNode.new p)).give ≠ DirectionGiving.Given
        ∧ (Node.consoleOut ⟨p⟩).give ≠ DirectionGiving.Given
        ∧ (Node.numberConsoleOut ⟨p⟩).give ≠ DirectionGiving.Given) := by
  refine ⟨?_, ?_, ?_, ?_⟩
  · intro order w hpc hng
    unfold TIS.tick
    dsimp only
    have h1 := foldl_pres tickAt tickAt_good order w hpc hng
    have h2 := foldl_pres handleGiveAt handleGiveAt_pres order _ h1.1 h1.2
    have h3 := foldl_pres postHandleAt postHandleAt_pres order _ h2.1 h2.2
    exact ⟨h3.2, h3.1⟩
  · intro w p hpc hng
    exact (postHandleAt_pres w p hpc hng).2
  · intro w nd hpc hng hg
    have h := add_node_pres w nd hpc hng hg
    exact ⟨h.2, h.1⟩
  · intro p labels instrs
    exact ⟨by simp [Node.give, InstructionNode.new],
      by simp [Node.give, ConsoleInNode.new],
      by simp [Node.give, NumberConsoleInNode.new],
      by simp [Node.give],
      by simp [Node.give]⟩

/-- Closed witness for C10: the reachable single-`nop` world, built by
`add_node` from the empty grid, has no `Given` port after a full tick. -/
theorem C10_no_given_after_tick_witness :
    noGiven (TIS.tick [⟨0, 0⟩] (TIS.add_node ⟨[], [], []⟩
      (.instr (InstructionNode.new ⟨0, 0⟩ [] [.Noop])))) := by
  have hempty_pc : PosConsistent ⟨[], [], []⟩ := by
    intro q m hq
    simp [TIS.findNode] at hq
  have hempty_ng : noGiven ⟨[], [], []⟩ := by
    intro q m hq
    simp [TIS.findNode] at hq
  have hadd := C10_no_given_after_tick.2.2.1 ⟨[], [], []⟩
      (.instr (InstructionNode.new ⟨0, 0⟩ [] [.Noop])) hempty_pc hempty_ng (by decide)
  exact (C10_no_given_after_tick.1 [⟨0, 0⟩] _ hadd.2 hadd.1).1

end TisCli